import Mathlib

/-!
Verification development for the Pech OSD server core
(src/src/ceph/osd_server.c and src/src/iov_iter.c).

The C sources are shallowly embedded as executable Lean definitions:
machine integers become Nat (with explicit wraparound modulo 2^64 where the
C subtraction can underflow), tagged unions become inductive types, the two
intrusive red-black trees become association lists respectively lists kept
sorted by key (the in-order traversal of the tree), a memory page becomes a
function from byte offset to byte value, and fallible or possibly
non-terminating code returns Option.

Definitions whose C source is outside the two files above (headers such as
ceph/decode.h, bvec.h, the messenger cursor) are marked
"Modelled from the spec:" and follow the specification text.
-/

namespace Pech

/-! ## Basic constants (osd_server.c, enum at lines 21-25, errno values) -/

/-- Block shift of the object store: blocks are 64 KiB. -/
def OSDS_BLOCK_SHIFT : Nat := 16

/-- Block size of the object store, `1 << OSDS_BLOCK_SHIFT` = 65536. -/
def OSDS_BLOCK_SIZE : Nat := 2 ^ OSDS_BLOCK_SHIFT

/-- ALIGN_DOWN to the block size; for a power of two this is
`x & ~(OSDS_BLOCK_SIZE-1)`, i.e. the largest multiple of the block size
that is at most x. -/
def ALIGN_DOWN (x : Nat) : Nat := OSDS_BLOCK_SIZE * (x / OSDS_BLOCK_SIZE)

def ENOENT : Int := 2
def ENOMEM : Int := 12
def EINVAL : Int := 22
def EAGAIN : Int := 11
def EINPROGRESS : Int := 115
def EOPNOTSUPP : Int := 95

/-- Wraparound bound of a 64-bit size_t. -/
def W64 : Nat := 2 ^ 64

/-! ## Byte buffers

A page of memory is modelled as a function from byte offset to byte value.
memset-to-zero and memcpy over a contiguous range become pointwise updates. -/

/-- Write len zero bytes at offsets [start, start+len) of buf (memset 0). -/
def bufZero (buf : Nat → Nat) (start len : Nat) : Nat → Nat :=
  fun j => if start ≤ j ∧ j < start + len then 0 else buf j

/-- Copy len bytes from src (starting at srcOff) to offsets
[start, start+len) of buf (memcpy). -/
def bufCopy (buf : Nat → Nat) (start : Nat) (src : Nat → Nat) (srcOff len : Nat) :
    Nat → Nat :=
  fun j => if start ≤ j ∧ j < start + len then src (srcOff + (j - start)) else buf j

/-! ## timespec64 -/

/-- Embedding of struct timespec64 (seconds, nanoseconds). -/
structure timespec64 where
  tv_sec : Nat
  tv_nsec : Nat
deriving DecidableEq

/-! ## iov_iter (src/src/iov_iter.c)

A segment is a length together with the bytes behind the base pointer.
For ITER_KVEC and ITER_IOVEC this is exactly struct kvec / struct iovec;
for ITER_BVEC the (page, bv_offset, bv_len) triple is flattened to the
bv_len bytes starting at bv_offset of the page (the page contents outside
the segment are never touched by the iterator code).  The iterator keeps
the unconsumed tail of the segment array (the C code advances the base
pointer and decrements nr_segs; nr_segs is the length of the list here). -/

structure iovSeg where
  iov_len : Nat
  iov_data : Nat → Nat

/-- Iterator kind: the ITER_IOVEC / ITER_KVEC / ITER_BVEC / ITER_DISCARD
type bits of i->type.  ITER_PIPE is never constructed by this repository
(iov_iter_advance BUGs on it), so it is not modelled. -/
inductive IterKind where
  | iovec
  | kvec
  | bvec
  | discard
deriving DecidableEq

/-- Embedding of struct iov_iter: kind bits, unconsumed segment tail,
intra-segment offset, remaining byte count. -/
structure IovIter where
  kind : IterKind
  segs : List iovSeg
  iov_offset : Nat
  count : Nat

/-- Walk of the trailing segments by iterate_iovec / iterate_kvec
(iov_iter.c lines 23-33 and 47-56) combined with the
"if (skip == ...->iov_len) skip = 0, next segment" normalisation of
iterate_and_advance (lines 109-112 / 121-124): consume n bytes starting at
the beginning of the segment list, skipping zero-length segments.  The C
code never runs past the end of the array because the caller guarantees
n is at most the bytes left; on an empty list this model stops. -/
def consumeRest : List iovSeg → Nat → List iovSeg × Nat
  | [], _n => ([], 0)
  | s :: rest, n =>
    if s.iov_len = 0 then consumeRest rest n
    else if n < s.iov_len then (s :: rest, n)
    else if n = s.iov_len then (rest, 0)
    else consumeRest rest (n - s.iov_len)

/-- Consumption of n bytes from the segment list starting at intra-segment
offset skip of the first segment (first iteration of iterate_iovec /
iterate_kvec, lines 13-19 / 40-45, then the while loop via consumeRest),
including the end-of-segment normalisation.  Returns the unconsumed
segment tail and the new intra-segment offset. -/
def segAdvance (segs : List iovSeg) (skip n : Nat) : List iovSeg × Nat :=
  match segs with
  | [] => ([], skip)
  | s :: rest =>
    let l0 := min n (s.iov_len - skip)
    let skip2 := skip + l0
    let n2 := n - l0
    if n2 = 0 then
      if skip2 = s.iov_len then (rest, 0) else (s :: rest, skip2)
    else consumeRest rest n2

/-- Cursor effect of the iterate_and_advance macro (iov_iter.c lines
92-131): clamp n to i->count, walk the segments (for ITER_DISCARD just
skip += n), then i->count -= n and i->iov_offset = skip.  The bvec branch
uses the bvec_iter machinery of the missing bvec.h header; modelled from
the spec: a PageVector advances through consecutive chunks exactly like
the other segment kinds, with the same end-of-chunk normalisation. -/
def iterateAndAdvance (i : IovIter) (size : Nat) : IovIter :=
  let n := min size i.count
  if i.count = 0 then i
  else
    match i.kind with
    | IterKind.discard => { i with iov_offset := i.iov_offset + n, count := i.count - n }
    | _ =>
      let sa := segAdvance i.segs i.iov_offset n
      { i with segs := sa.1, iov_offset := sa.2, count := i.count - n }

/-- Embedding of iov_iter_advance (iov_iter.c lines 175-186).  For
ITER_DISCARD the count is decremented without clamping (`i->count -= size`
on a size_t, hence wraparound modulo 2^64); otherwise the effect is
iterate_and_advance with a zero step. -/
def iov_iter_advance (i : IovIter) (size : Nat) : IovIter :=
  match i.kind with
  | IterKind.discard =>
    { i with count := (i.count + (W64 - size % W64)) % W64 }
  | _ => iterateAndAdvance i size

/-- Embedding of iov_iter_count (accessor of i->count from the missing
uio.h header; modelled from the spec: remaining() returns the current
count). -/
def iov_iter_count (i : IovIter) : Nat := i.count

/-- Byte k of the unconsumed byte stream of the iterator (byte k after
skipping iov_offset bytes of the first segment). -/
def segsPeek : List iovSeg → Nat → Nat → Nat
  | [], _skip, _k => 0
  | s :: rest, skip, k =>
    if skip + k < s.iov_len then s.iov_data (skip + k)
    else segsPeek rest 0 (skip + k - s.iov_len)

/-- Embedding of _copy_from_iter (iov_iter.c lines 220-237): clamp bytes
to i->count, copy that many bytes from the iterator into dst starting at
dstOff (no copy for ITER_DISCARD), advance the cursor, and return the
clamped byte count together with the new dst and iterator.  copyin of the
iovec branch is the checked user copy of the missing uio.h header;
modelled from the spec: in this userspace port the copy succeeds. -/
def _copy_from_iter (dst : Nat → Nat) (dstOff bytes : Nat) (i : IovIter) :
    (Nat → Nat) × Nat × IovIter :=
  let n := min bytes i.count
  let dst2 :=
    if i.kind = IterKind.discard then dst
    else bufCopy dst dstOff (segsPeek i.segs i.iov_offset) 0 n
  (dst2, n, iterateAndAdvance i bytes)

/-! ## Object store (osd_server.c)

The per-object block tree (rb tree keyed by b_off, DEFINE_RB_FUNCS at
line 116) is embedded as its in-order traversal: a list of blocks sorted
strictly by b_off.  The object table (rb tree keyed by hoid, line 109) is
embedded as an association list; the hoid is abstracted to a Nat key,
since only equality of keys is observable through the handlers. -/

/-- Embedding of struct ceph_osds_block: the block offset inside the
object and the 64 KiB page contents. -/
structure ceph_osds_block where
  b_off : Nat
  b_data : Nat → Nat

/-- Embedding of struct ceph_osds_object (the o_hoid key is kept in the
store association list). -/
structure ceph_osds_object where
  o_size : Nat
  o_mtime : timespec64
  o_blocks : List ceph_osds_block

/-- Embedding of the s_objects tree of struct ceph_osd_server. -/
abbrev Store : Type := List (Nat × ceph_osds_object)

/-- lookup_object_by_hoid: exact lookup in the object table. -/
def store_lookup (st : Store) (hoid : Nat) : Option ceph_osds_object :=
  (List.find? (fun e => e.1 == hoid) st).map (fun e => e.2)

/-- insert_object_by_hoid respectively in-place update of the object the
write handler holds a pointer to: the entry for hoid is replaced (or
added). -/
def store_insert (st : Store) (hoid : Nat) (obj : ceph_osds_object) : Store :=
  (hoid, obj) :: List.filter (fun e => e.1 != hoid) st

/-- lookup_object_block_by_off: exact lookup in the block tree. -/
def block_lookup (bs : List ceph_osds_block) (off : Nat) : Option ceph_osds_block :=
  List.find? (fun b => b.b_off == off) bs

/-- insert_object_block_by_off: keyed insertion into the block tree,
i.e. ordered insertion into the sorted traversal. -/
def insert_block : List ceph_osds_block → ceph_osds_block → List ceph_osds_block
  | [], nb => [nb]
  | b :: rest, nb =>
    if nb.b_off < b.b_off then nb :: b :: rest else b :: insert_block rest nb

/-- Embedding of next_dst (osd_server.c lines 633-669): find the block
containing dst_off, allocating a fresh zeroed block at
ALIGN_DOWN(dst_off) if absent (alloc_pages with __GFP_ZERO), and return
the new block list, the block key, and
dst_len = OSDS_BLOCK_SIZE - dst_off % OSDS_BLOCK_SIZE. -/
def next_dst (blocks : List ceph_osds_block) (dst_off : Nat) :
    List ceph_osds_block × Nat × Nat :=
  let blk_off := ALIGN_DOWN dst_off
  let blocks2 :=
    match block_lookup blocks blk_off with
    | some _ => blocks
    | none => insert_block blocks { b_off := blk_off, b_data := fun _ => 0 }
  (blocks2, blk_off, OSDS_BLOCK_SIZE - dst_off % OSDS_BLOCK_SIZE)

/-! ## Write path (handle_osd_op_write, osd_server.c lines 671-758) -/

/-- Loop state of the while (len_write) loop of handle_osd_op_write:
the block tree being filled, the shared input iterator, and the local
variables len_write, dst_off, dst_len, blk (tracked by its key; the C
blk pointer is NULL until the first next_dst, and dst_len = 0 guarantees
next_dst runs before the first dereference) and modified. -/
structure WriteSt where
  blocks : List ceph_osds_block
  it : IovIter
  len_write : Nat
  dst_off : Nat
  dst_len : Nat
  blk_off : Nat
  modified : Bool

/-- One iteration of the copy loop of handle_osd_op_write (lines
721-747): refresh the destination block when dst_len ran out, take
len = min(iov_iter_count, dst_len, len_write), copy len bytes from the
iterator into the block page at offset dst_off % OSDS_BLOCK_SIZE, and
advance all counters.  ceph_msg_data_cursor_next and
ceph_msg_data_cursor_advance live in the missing messenger source;
modelled from the spec: the shared cursor is the iov_iter over the single
inbound data segment, so next is a no-op and advance is the bookkeeping
already done by copy_from_iter. -/
def write_step (st : WriteSt) : WriteSt :=
  let nd :=
    if st.dst_len = 0 then next_dst st.blocks st.dst_off
    else (st.blocks, st.blk_off, st.dst_len)
  let blocks := nd.1
  let blk_off := nd.2.1
  let dst_len := nd.2.2
  let len := min (min (iov_iter_count st.it) dst_len) st.len_write
  match block_lookup blocks blk_off with
  | some blk =>
    let cp := _copy_from_iter blk.b_data (st.dst_off % OSDS_BLOCK_SIZE) len st.it
    { blocks := List.map
        (fun b => if b.b_off == blk_off then { b with b_data := cp.1 } else b) blocks,
      it := cp.2.2,
      len_write := st.len_write - len,
      dst_off := st.dst_off + len,
      dst_len := dst_len - len,
      blk_off := blk_off,
      modified := true }
  | none =>
    -- unreachable: next_dst inserted the block and blocks are never
    -- removed inside the loop; kept total with the same counter updates
    { blocks := blocks,
      it := iterateAndAdvance st.it len,
      len_write := st.len_write - len,
      dst_off := st.dst_off + len,
      dst_len := dst_len - len,
      blk_off := blk_off,
      modified := true }

/-- The while (len_write) loop of handle_osd_op_write.  The C loop has no
fuel; the embedding returns none when the given fuel is exhausted, and
an initial fuel of len_write is exact: every productive iteration
decreases len_write by at least one, and once an iteration makes no
progress (input iterator exhausted) no later iteration does, so the C
loop diverges exactly when the embedding returns none. -/
def write_loop : Nat → WriteSt → Option WriteSt
  | fuel, st =>
    if st.len_write = 0 then some st
    else
      match fuel with
      | 0 => none
      | fuel' + 1 => write_loop fuel' (write_step st)

/-- Object creation of handle_osd_op_write (lines 699-710): the object is
kmalloc-ed (not kzalloc-ed), then o_size is set to 0 and o_blocks to the
empty tree; o_mtime is never written, so it keeps the indeterminate
allocator contents, passed in here as junk_mtime. -/
def new_object (junk_mtime : timespec64) : ceph_osds_object :=
  { o_size := 0, o_mtime := junk_mtime, o_blocks := [] }

/-- Per-op extent and flags of struct ceph_osd_req_op as used by the
handlers. Opcodes are a tagged view of the u16 opcode space: the three
dispatched values plus every other value. -/
inductive OpCode where
  | WRITE
  | READ
  | STAT
  | other (code : Nat)
deriving DecidableEq

/-- CEPH_OSD_OP_FLAG_FAILOK bit (missing rados.h header; modelled from
the spec: a per-op flag bit, tested by mask). -/
def CEPH_OSD_OP_FLAG_FAILOK : Nat := 2

def has_failok (flags : Nat) : Bool := flags.land CEPH_OSD_OP_FLAG_FAILOK != 0

/-- Embedding of the fields of struct ceph_osd_req_op observable through
the server: opcode, flags, the extent payload, and the reply fields rval,
outdata_len, outdata.  ceph_decode_msg_osd_op zeroes the whole op array
(init_msg_osd_op, line 378), so decoded ops carry rval = 0,
outdata_len = 0, outdata = none. -/
structure OsdOp where
  op : OpCode
  flags : Nat
  extent_offset : Nat
  extent_length : Nat
  rval : Int
  outdata_len : Nat
  outdata : Option (Nat → Nat)

/-- Embedding of handle_osd_op_write (osd_server.c lines 671-758).
Returns none exactly when the C loop diverges; otherwise the op result,
the updated store, and the advanced input iterator.  The NOOP_WRITE
messenger option is the noop_write parameter; junk_mtime is the
indeterminate o_mtime of a freshly kmalloc-ed object. -/
def handle_osd_op_write (noop_write : Bool) (junk_mtime : timespec64)
    (st : Store) (hoid : Nat) (req_mtime : timespec64) (op : OsdOp)
    (it : IovIter) : Option (Int × Store × IovIter) :=
  if op.extent_length = 0 then some (0, st, it)
  else if noop_write = true ∧ 4096 ≤ op.extent_length then some (0, st, it)
  else
    let obj :=
      match store_lookup st hoid with
      | some o => o
      | none => new_object junk_mtime
    let st0 : WriteSt :=
      { blocks := obj.o_blocks, it := it, len_write := op.extent_length,
        dst_off := op.extent_offset, dst_len := 0, blk_off := 0, modified := false }
    match write_loop op.extent_length st0 with
    | none => none
    | some stf =>
      let obj2 :=
        if stf.modified = true then
          { obj with
            o_blocks := stf.blocks,
            o_mtime := req_mtime,
            o_size := if obj.o_size < stf.dst_off then stf.dst_off else obj.o_size }
        else { obj with o_blocks := stf.blocks }
      some (0, store_insert st hoid obj2, stf.it)

/-! ## Read path (handle_osd_op_read, osd_server.c lines 786-877) -/

/-- Embedding of lookup_right_block (lines 760-784) together with the
rb_next iteration of the read loop: on the sorted traversal, the block
with the smallest b_off that is at least off is the head of the suffix
obtained by dropping all blocks with smaller b_off, and rb_next walks
that suffix. -/
def lookup_right_suffix (bs : List ceph_osds_block) (off : Nat) :
    List ceph_osds_block :=
  List.dropWhile (fun b => b.b_off < off) bs

/-- Loop state of the read loop: output page, off_inpg, off, len_read. -/
structure ReadSt where
  buf : Nat → Nat
  off_inpg : Nat
  off : Nat
  len_read : Nat

/-- Hole handling of one read loop iteration (osd_server.c lines
833-844): if the found block starts past the read position, zero-fill
min(blk.b_off - off, len_read) output bytes. -/
def read_hole_step (blk : ceph_osds_block) (s : ReadSt) : ReadSt :=
  if s.off < blk.b_off then
    let len_zero := min (blk.b_off - s.off) s.len_read
    { buf := bufZero s.buf s.off_inpg len_zero,
      off_inpg := s.off_inpg + len_zero,
      off := s.off + len_zero,
      len_read := s.len_read - len_zero }
  else s

/-- Block copy of one read loop iteration (osd_server.c lines 846-862):
copy min(OSDS_BLOCK_SIZE - off % OSDS_BLOCK_SIZE, len_read) bytes from
the block page at the in-block offset. -/
def read_copy_step (blk : ceph_osds_block) (s1 : ReadSt) : ReadSt :=
  let off_inblk := s1.off % OSDS_BLOCK_SIZE
  let len_copy := min (OSDS_BLOCK_SIZE - off_inblk) s1.len_read
  { buf := bufCopy s1.buf s1.off_inpg blk.b_data off_inblk len_copy,
    off_inpg := s1.off_inpg + len_copy,
    off := s1.off + len_copy,
    len_read := s1.len_read - len_copy }

/-- The while (blk && len_read) loop of handle_osd_op_read (lines
829-869): zero-fill the hole before the block, copy from the block page,
advance to the next block in key order. -/
def read_loop : List ceph_osds_block → ReadSt → ReadSt
  | [], s => s
  | blk :: rest, s =>
    if s.len_read = 0 then s
    else
      let s1 := read_hole_step blk s
      if s1.len_read = 0 then s1
      else read_loop rest (read_copy_step blk s1)

/-- Embedding of handle_osd_op_read (lines 786-877).  junk_page is the
contents of the freshly allocated output page (alloc_bvec allocates with
plain GFP_KERNEL, so the page starts with indeterminate bytes; the loop
overwrites every byte below outdata_len).  Returns the op result and the
op with its reply fields updated. -/
def handle_osd_op_read (junk_page : Nat → Nat) (st : Store) (hoid : Nat)
    (op : OsdOp) : Int × OsdOp :=
  match store_lookup st hoid with
  | none => (-ENOENT, op)
  | some obj =>
    if obj.o_size ≤ op.extent_offset then (0, op)
    else
      let len_read := min op.extent_length (obj.o_size - op.extent_offset)
      let off := op.extent_offset
      let blks := lookup_right_suffix obj.o_blocks (ALIGN_DOWN off)
      let t := read_loop blks
        { buf := junk_page, off_inpg := 0, off := off, len_read := len_read }
      let buf := if t.len_read ≠ 0 then bufZero t.buf t.off_inpg t.len_read else t.buf
      (0, { op with outdata_len := len_read, outdata := some buf })

/-! ## Stat path (handle_osd_op_stat, osd_server.c lines 879-918) -/

/-- Little-endian byte encoding of a value on w bytes (the value is
implicitly truncated modulo 2^(8*w), matching the u32/u64 stores of the
encode helpers). -/
def bytesLE : Nat → Nat → List Nat
  | 0, _v => []
  | w + 1, v => v % 256 :: bytesLE w (v / 256)

/-- Little-endian read-back of w bytes of a buffer starting at off. -/
def decodeLE (buf : Nat → Nat) : Nat → Nat → Nat
  | _off, 0 => 0
  | off, w + 1 => buf off + 256 * decodeLE buf (off + 1) w

/-- Reply payload of handle_osd_op_stat: ceph_encode_64 of o_size
followed by ceph_encode_copy of the ceph_timespec (u32 seconds, u32
nanoseconds) of o_mtime.  The encode helpers live in the missing
ceph/decode.h header; modelled from the spec: emit the u64 size then the
Timestamp, 16 bytes total, little-endian. -/
def stat_outdata (obj : ceph_osds_object) : Nat → Nat :=
  fun j =>
    List.getD
      (bytesLE 8 obj.o_size ++ bytesLE 4 obj.o_mtime.tv_sec ++
        bytesLE 4 obj.o_mtime.tv_nsec) j 0

/-- Embedding of handle_osd_op_stat (lines 879-918): -ENOENT for an
absent object, otherwise an owned 16-byte reply buffer (8 + sizeof
ceph_timespec) holding size then mtime. -/
def handle_osd_op_stat (st : Store) (hoid : Nat) (op : OsdOp) : Int × OsdOp :=
  match store_lookup st hoid with
  | none => (-ENOENT, op)
  | some obj =>
    (0, { op with outdata_len := 16, outdata := some (stat_outdata obj) })

/-! ## Dispatch (handle_osd_op, osd_server.c lines 920-945) -/

/-- Embedding of handle_osd_op: dispatch on op->op to the three handlers
(unknown opcodes get -EOPNOTSUPP), then op->rval = ret.  Returns none
exactly when a write diverges. -/
def handle_osd_op (noop_write : Bool) (junk_mtime : timespec64)
    (junk_page : Nat → Nat) (hoid : Nat) (req_mtime : timespec64)
    (st : Store) (it : IovIter) (op : OsdOp) :
    Option (Int × OsdOp × Store × IovIter) :=
  match op.op with
  | OpCode.WRITE =>
    match handle_osd_op_write noop_write junk_mtime st hoid req_mtime op it with
    | none => none
    | some (ret, st2, it2) => some (ret, { op with rval := ret }, st2, it2)
  | OpCode.READ =>
    let r := handle_osd_op_read junk_page st hoid op
    some (r.1, { r.2 with rval := r.1 }, st, it)
  | OpCode.STAT =>
    let r := handle_osd_op_stat st hoid op
    some (r.1, { r.2 with rval := r.1 }, st, it)
  | OpCode.other _ =>
    some (-EOPNOTSUPP, { op with rval := -EOPNOTSUPP }, st, it)

/-! ## Per-request op loop (handle_osd_ops, osd_server.c lines 969-982) -/

/-- Embedding of the op loop of handle_osd_ops: execute ops in ascending
index order; a failing op with FAILOK (and a result that is neither
-EAGAIN nor -EINPROGRESS) is swallowed, any other failure breaks out of
the loop, leaving the remaining ops untouched.  Returns the overall
result (the reply result), the op array (executed prefix updated,
untouched tail as decoded), the store, the iterator, and the number of
ops that were executed. -/
def handle_osd_ops_loop (noop_write : Bool) (junk_mtime : timespec64)
    (junk_page : Nat → Nat) (hoid : Nat) (req_mtime : timespec64) :
    List OsdOp → Store → IovIter →
    Option (Int × List OsdOp × Store × IovIter × Nat)
  | [], st, it => some (0, [], st, it, 0)
  | op :: rest, st, it =>
    match handle_osd_op noop_write junk_mtime junk_page hoid req_mtime st it op with
    | none => none
    | some (ret, op2, st2, it2) =>
      let ret2 :=
        if ret ≠ 0 ∧ has_failok op.flags = true ∧ ret ≠ -EAGAIN ∧ ret ≠ -EINPROGRESS
        then 0 else ret
      if ret2 ≠ 0 then some (ret2, op2 :: rest, st2, it2, 1)
      else
        match handle_osd_ops_loop noop_write junk_mtime junk_page hoid req_mtime
            rest st2 it2 with
        | none => none
        | some (r, ops2, st3, it3, n) => some (r, op2 :: ops2, st3, it3, n + 1)

/-- One decoded OSD_OP request as consumed by the op loop: the target
object key, the request mtime, the decoded op array, and the inbound
data iterator. -/
structure OsdRequest where
  hoid : Nat
  mtime : timespec64
  ops : List OsdOp
  it : IovIter

/-- Store effect of handle_osd_ops on one request. -/
def apply_request (noop_write : Bool) (junk_mtime : timespec64)
    (junk_page : Nat → Nat) (st : Store) (r : OsdRequest) : Option Store :=
  (handle_osd_ops_loop noop_write junk_mtime junk_page r.hoid r.mtime
      r.ops st r.it).map
    (fun x => x.2.2.1)

/-- Store effect of a sequence of requests dispatched in order. -/
def apply_requests (noop_write : Bool) (junk_mtime : timespec64)
    (junk_page : Nat → Nat) : Store → List OsdRequest → Option Store
  | st, [] => some st
  | st, r :: rs =>
    match apply_request noop_write junk_mtime junk_page st r with
    | none => none
    | some st2 => apply_requests noop_write junk_mtime junk_page st2 rs

/-! ## Wire decoding of an OSD_OP request
(ceph_decode_msg_osd_op, osd_server.c lines 509-615)

The front section of the message is a byte list; a decoding position
walks it.  The primitive decode helpers live in the missing ceph/decode.h
header; modelled from the spec: every decode checks bounds before
advancing (a short buffer is an error), multi-byte integers are
little-endian, and length-prefixed versioned sub-structs check the
version gate and respect their declared length.  All decode failures are
collapsed to -EINVAL, matching the bad: labels of the source. -/

/-- Number of decoded ops accepted by the server, CEPH_OSD_MAX_OPS of the
missing osd_client.h header; modelled from the spec: at most 16 ops. -/
def CEPH_OSD_MAX_OPS : Nat := 16

/-- Fixed size of the skipped struct ceph_osd_reqid (missing header;
modelled from the spec: a length-prefixed reqid struct of fixed size,
skipped).  The exact value only shifts the skipped region. -/
def REQID_SIZE : Nat := 21

/-- Fixed size of the skipped struct ceph_blkin_trace_info (missing
header; modelled from the spec: a fixed-size trace blob, skipped). -/
def TRACE_SIZE : Nat := 24

/-- Decoding cursor over the front of the message. -/
structure DecBuf where
  bytes : List Nat
  pos : Nat

/-- ceph_has_room: n more bytes available at the current position. -/
def ceph_has_room (c : DecBuf) (n : Nat) : Bool := c.pos + n ≤ c.bytes.length

def dec_skip (c : DecBuf) (n : Nat) : DecBuf := { c with pos := c.pos + n }

/-- Little-endian integer on w bytes at the current position. -/
def dec_readLE (c : DecBuf) (w : Nat) : Nat :=
  decodeLE (fun j => List.getD c.bytes j 0) c.pos w

/-- ceph_decode_*_safe on w bytes: bounds check, read, advance; none is
the bad: path (-EINVAL at the call sites of the source). -/
def ceph_decode_safe (w : Nat) (c : DecBuf) : Option (Nat × DecBuf) :=
  if ceph_has_room c w then some (dec_readLE c w, dec_skip c w) else none

/-- ceph_decode_skip_n: bounds-checked skip. -/
def ceph_decode_skip_n (n : Nat) (c : DecBuf) : Option DecBuf :=
  if ceph_has_room c n then some (dec_skip c n) else none

/-- ceph_start_decoding (missing header; modelled from the spec: read the
struct version byte, the compat byte and the u32 struct length, require
version ≥ the minimum and room for the declared length).  Returns the
struct version, the declared length and the cursor at the struct body. -/
def ceph_start_decoding (v : Nat) (c : DecBuf) : Except Int (Nat × Nat × DecBuf) :=
  if ceph_has_room c 6 = true then
    let struct_v := dec_readLE c 1
    let struct_len := dec_readLE (dec_skip c 2) 4
    let c2 := dec_skip c 6
    if struct_v < v then Except.error (-EINVAL)
    else if ceph_has_room c2 struct_len = true then Except.ok (struct_v, struct_len, c2)
    else Except.error (-EINVAL)
  else Except.error (-EINVAL)

/-- ceph_decode_pgid (missing osdmap source; modelled from the spec: a
version byte that must be 1, u64 pool, u32 seed, i32 preferred). -/
def ceph_decode_pgid (c : DecBuf) : Except Int DecBuf :=
  if ceph_has_room c 17 = true then
    if dec_readLE c 1 = 1 then Except.ok (dec_skip c 17)
    else Except.error (-EINVAL)
  else Except.error (-EINVAL)

/-- Embedding of decode_spgid (osd_server.c lines 389-415): start
decoding of the pgid struct, decode the pgid and the shard byte, then
enforce the declared struct length (reading past it is corruption,
reading less skips forward). -/
def decode_spgid (c : DecBuf) : Except Int DecBuf :=
  match ceph_start_decoding 1 c with
  | Except.error e => Except.error e
  | Except.ok (_v, struct_len, c1) =>
    let beg := c1.pos
    match ceph_decode_pgid c1 with
    | Except.error e => Except.error e
    | Except.ok c2 =>
      match ceph_decode_safe 1 c2 with
      | none => Except.error (-EINVAL)
      | some (_shard, c3) =>
        if beg + struct_len < c3.pos then Except.error (-EINVAL)
        else Except.ok { c3 with pos := beg + struct_len }

/-- ceph_oloc_decode (missing osdmap source; modelled from the spec: the
object-locator is a length-prefixed versioned struct decoded by a
sub-codec; its fields are not used by the embedded handlers, so the body
is skipped by its declared length). -/
def ceph_oloc_decode (c : DecBuf) : Except Int DecBuf :=
  match ceph_start_decoding 3 c with
  | Except.error e => Except.error e
  | Except.ok (_v, struct_len, c1) => Except.ok (dec_skip c1 struct_len)

/-- Embedding of osd_req_decode_op (osd_server.c lines 417-507): room
check for the fixed 64-byte op struct, then dispatch on the u16 opcode;
an unknown opcode is -EINVAL.  The membership test on the opcode space is
the switch over the CEPH_OSD_OP_* values of the missing rados.h header,
passed in as the known predicate. -/
def osd_req_decode_op (known : Nat → Bool) (c : DecBuf) : Except Int DecBuf :=
  if ceph_has_room c 64 = true then
    if known (dec_readLE c 2) = true then Except.ok (dec_skip c 64)
    else Except.error (-EINVAL)
  else Except.error (-EINVAL)

/-- The for loop decoding req->ops (lines 571-575). -/
def decode_ops (known : Nat → Bool) : Nat → DecBuf → Except Int DecBuf
  | 0, c => Except.ok c
  | n + 1, c =>
    match osd_req_decode_op known c with
    | Except.error e => Except.error e
    | Except.ok c2 => decode_ops known n c2

/-- The for loop decoding req->snaps (lines 595-596). -/
def decode_snaps : Nat → DecBuf → Option DecBuf
  | 0, c => some c
  | n + 1, c =>
    match ceph_decode_safe 8 c with
    | none => none
    | some (_s, c2) => decode_snaps n c2

/-- Embedding of ceph_decode_msg_osd_op (osd_server.c lines 509-615),
reduced to the returned status: 0 on success, otherwise the error the
function returns.  The local variable ret of the source is threaded
explicitly; in particular the goto err on num_ops > CEPH_OSD_MAX_OPS
(line 569) and on num_snaps > 1024 (line 583) returns ret as last
assigned by the preceding successful call, which is 0. -/
def ceph_decode_msg_osd_op (known : Nat → Bool) (front : List Nat) : Int :=
  let c : DecBuf := { bytes := front, pos := 0 }
  match decode_spgid c with
  | Except.error e => e
  | Except.ok c =>
    match ceph_decode_safe 4 c with  -- raw hash
    | none => -EINVAL
    | some (_hash, c) =>
    match ceph_decode_safe 4 c with  -- epoch
    | none => -EINVAL
    | some (_epoch, c) =>
    match ceph_decode_safe 4 c with  -- flags
    | none => -EINVAL
    | some (_flags, c) =>
    match ceph_start_decoding 2 c with  -- reqid header
    | Except.error e => e
    | Except.ok (_v, struct_len, c1) =>
    let beg := c1.pos
    match ceph_decode_skip_n REQID_SIZE c1 with
    | none => -EINVAL
    | some c2 =>
    if beg + struct_len < c2.pos then -EINVAL
    else
    let c := { c2 with pos := beg + struct_len }
    match ceph_decode_skip_n TRACE_SIZE c with  -- blkin trace
    | none => -EINVAL
    | some c =>
    match ceph_decode_skip_n 4 c with  -- client_inc
    | none => -EINVAL
    | some c =>
    match ceph_decode_skip_n 8 c with  -- mtime (ceph_decode_copy_safe)
    | none => -EINVAL
    | some c =>
    match ceph_oloc_decode c with
    | Except.error e => e
    | Except.ok c =>
    match ceph_decode_safe 4 c with  -- object name length
    | none => -EINVAL
    | some (strlen, c) =>
    if ceph_has_room c strlen = false then -EINVAL  -- ceph_decode_need
    else
    let c := dec_skip c strlen
    -- ret = ceph_oid_aprintf(...): allocation of the missing oid source;
    -- modelled from the spec: succeeds, so ret = 0 from here on
    match ceph_decode_safe 2 c with  -- num_ops (u16)
    | none => -EINVAL
    | some (num_ops, c) =>
    if CEPH_OSD_MAX_OPS < num_ops then
      -- source line 569: goto err with ret still 0 (the success value of
      -- ceph_oid_aprintf); the decoder reports success on an over-long
      -- op vector
      0
    else
    match decode_ops known num_ops c with
    | Except.error e => e
    | Except.ok c =>
    match ceph_decode_safe 8 c with  -- hoid.snapid
    | none => -EINVAL
    | some (_snapid, c) =>
    match ceph_decode_safe 8 c with  -- snap_seq
    | none => -EINVAL
    | some (_seq, c) =>
    match ceph_decode_safe 4 c with  -- num_snaps
    | none => -EINVAL
    | some (num_snaps, c) =>
    if 1024 < num_snaps then
      -- source line 583: goto err with ret still 0, same slip as num_ops
      0
    else
    match decode_snaps num_snaps c with
    | none => -EINVAL
    | some c =>
    match ceph_decode_safe 4 c with  -- attempts
    | none => -EINVAL
    | some (_att, c) =>
    match ceph_decode_safe 8 c with  -- features
    | none => -EINVAL
    | some (_feat, _c) => 0

/-- Concrete front section of an inbound OSD_OP message that is
well-formed up to and including the num_ops field, with num_ops = 17:
spgid struct (v1, declared length 18: pgid v1 + pool 0 + seed 0 +
preferred + shard), raw hash, epoch, flags, reqid struct (v2, declared
length REQID_SIZE), blkin trace blob, client_inc, mtime, object locator
(v3, empty body), empty object name, num_ops = 17 (u16). -/
def crafted_num_ops_17_front : List Nat :=
  [1, 1] ++ bytesLE 4 18 ++ [1] ++ bytesLE 8 0 ++ bytesLE 4 0 ++
    [255, 255, 255, 255] ++ [0] ++
  bytesLE 4 0 ++ bytesLE 4 0 ++ bytesLE 4 0 ++
  [2, 1] ++ bytesLE 4 REQID_SIZE ++ List.replicate REQID_SIZE 0 ++
  List.replicate TRACE_SIZE 0 ++
  List.replicate 4 0 ++
  List.replicate 8 0 ++
  [3, 3] ++ bytesLE 4 0 ++
  bytesLE 4 0 ++
  bytesLE 2 17

/-! ## Store invariants and read specification -/

/-- Well-formedness of a block tree traversal: strictly ascending block
offsets (the rb-tree key order) and block-aligned offsets. -/
def blocks_wf (bs : List ceph_osds_block) : Prop :=
  List.Pairwise (fun a b => a.b_off < b.b_off) bs ∧
    ∀ b ∈ bs, b.b_off % OSDS_BLOCK_SIZE = 0

/-- Well-formedness of the object table: every object has a well-formed
block tree. -/
def store_wf (st : Store) : Prop := ∀ e ∈ st, blocks_wf e.2.o_blocks

/-- Alignment and pairwise disjointness of the blocks of one object, as
stated by the claim: offsets are multiples of OSDS_BLOCK_SIZE and any
two distinct blocks are separated by at least a block. -/
def blocks_aligned_disjoint (bs : List ceph_osds_block) : Prop :=
  (∀ b ∈ bs, b.b_off % OSDS_BLOCK_SIZE = 0) ∧
    List.Pairwise
      (fun a b => a.b_off + OSDS_BLOCK_SIZE ≤ b.b_off ∨
        b.b_off + OSDS_BLOCK_SIZE ≤ a.b_off) bs

/-- The block of the list covering absolute byte position q, if any. -/
def covering_block (bs : List ceph_osds_block) (q : Nat) :
    Option ceph_osds_block :=
  List.find? (fun b => decide (b.b_off ≤ q ∧ q < b.b_off + OSDS_BLOCK_SIZE)) bs

/-- Specification of one byte of a read at absolute position q: the
stored byte of the covering block, or zero in a hole. -/
def cover_byte (bs : List ceph_osds_block) (q : Nat) : Nat :=
  match covering_block bs q with
  | some b => b.b_data (q - b.b_off)
  | none => 0

/-- Reply buffer of an op, defaulting to the zero page when no out-data
was attached. -/
def opBuf (op : OsdOp) : Nat → Nat := op.outdata.getD (fun _ => 0)

/-! ## Concrete fixtures used by witnesses and counterexamples -/

/-- Chunk length of one iteration of the write copy loop:
min(iov_iter_count, dst_len after a possible next_dst, len_write). -/
def step_len (st : WriteSt) : Nat :=
  min
    (min (iov_iter_count st.it)
      (if st.dst_len = 0 then OSDS_BLOCK_SIZE - st.dst_off % OSDS_BLOCK_SIZE
       else st.dst_len))
    st.len_write

/-- A kvec iterator over one 5-byte segment, all 5 bytes unconsumed. -/
def exKvecIter : IovIter :=
  { kind := IterKind.kvec, segs := [{ iov_len := 5, iov_data := fun _ => 0 }],
    iov_offset := 0, count := 5 }

/-- A store holding one 10-byte object without blocks under key 3. -/
def exStore : Store :=
  [(3, { o_size := 10, o_mtime := { tv_sec := 0, tv_nsec := 0 }, o_blocks := [] })]

/-- A READ op at offset 20 length 5, as decoded (zeroed reply fields). -/
def exReadOp : OsdOp :=
  { op := OpCode.READ, flags := 0, extent_offset := 20, extent_length := 5,
    rval := 0, outdata_len := 0, outdata := none }

/-- Read scenario object: size 70000 with one allocated block at offset
OSDS_BLOCK_SIZE holding bytes (j + 3) % 256. -/
def exReadObj : ceph_osds_object :=
  { o_size := 70000, o_mtime := { tv_sec := 1, tv_nsec := 2 },
    o_blocks := [{ b_off := 65536, b_data := fun j => (j + 3) % 256 }] }

/-- Store holding exReadObj under hoid 7. -/
def exReadStore : Store := [(7, exReadObj)]

/-- A READ op straddling the hole just before the block of exReadObj:
offset 65534, length 4. -/
def exReadOp2 : OsdOp :=
  { op := OpCode.READ, flags := 0, extent_offset := 65534, extent_length := 4,
    rval := 0, outdata_len := 0, outdata := none }

/-- A WRITE op at offset 0 length 3, as decoded. -/
def exWriteOp : OsdOp :=
  { op := OpCode.WRITE, flags := 0, extent_offset := 0, extent_length := 3,
    rval := 0, outdata_len := 0, outdata := none }

/-- Initial copy-loop state of a 3-byte write at offset 0 fed from the
5-byte cursor. -/
def exWriteSt : WriteSt :=
  { blocks := [], it := exKvecIter, len_write := 3, dst_off := 0,
    dst_len := 0, blk_off := 0, modified := false }

/-- A STAT op with the FAILOK flag set, as decoded. -/
def exStatOpFailok : OsdOp :=
  { op := OpCode.STAT, flags := CEPH_OSD_OP_FLAG_FAILOK, extent_offset := 0,
    extent_length := 0, rval := 0, outdata_len := 0, outdata := none }

/-- Copy-loop state with 2 bytes still to write but an exhausted cursor. -/
def exWriteStEmpty : WriteSt :=
  { blocks := [],
    it := { kind := IterKind.kvec, segs := [], iov_offset := 0, count := 0 },
    len_write := 2, dst_off := 0, dst_len := 0, blk_off := 0, modified := false }

/-- A one-request sequence: write 3 bytes at offset 0 into object 0. -/
def exWriteRequest : OsdRequest :=
  { hoid := 0, mtime := { tv_sec := 5, tv_nsec := 0 }, ops := [exWriteOp],
    it := exKvecIter }

/-! # Theorems -/

/-! ## Little-endian encode/decode round trip -/

theorem bytesLE_length (w v : Nat) : (bytesLE w v).length = w := by
  induction w generalizing v with
  | zero => rfl
  | succ w ih => simp [bytesLE, ih]

theorem decodeLE_bytesLE (w : Nat) : ∀ (v off : Nat) (buf : Nat → Nat),
    (∀ k, k < w → buf (off + k) = List.getD (bytesLE w v) k 0) →
    decodeLE buf off w = v % 256 ^ w := by
  induction w with
  | zero => intro v off buf _h; simp [decodeLE, Nat.mod_one]
  | succ w ih =>
    intro v off buf h
    have h0 : buf off = v % 256 := by
      have := h 0 (Nat.succ_pos w)
      simpa [bytesLE] using this
    have hrest : ∀ k, k < w → buf (off + 1 + k) = List.getD (bytesLE w (v / 256)) k 0 := by
      intro k hk
      have hx := h (k + 1) (by omega)
      have e : off + (k + 1) = off + 1 + k := by omega
      rw [e] at hx
      simpa [bytesLE] using hx
    have hih := ih (v / 256) (off + 1) buf hrest
    calc decodeLE buf off (w + 1) = buf off + 256 * decodeLE buf (off + 1) w := rfl
      _ = v % 256 + 256 * (v / 256 % 256 ^ w) := by rw [h0, hih]
      _ = v % (256 * 256 ^ w) := (Nat.mod_mul).symm
      _ = v % 256 ^ (w + 1) := by rw [pow_succ, Nat.mul_comm]

theorem stat_outdata_size_bytes (obj : ceph_osds_object) :
    ∀ k, k < 8 → stat_outdata obj (0 + k) = List.getD (bytesLE 8 obj.o_size) k 0 := by
  intro k hk
  rw [Nat.zero_add]
  unfold stat_outdata
  rw [List.append_assoc]
  exact List.getD_append _ _ _ _ (by rw [bytesLE_length]; omega)

theorem stat_outdata_sec_bytes (obj : ceph_osds_object) :
    ∀ k, k < 4 →
      stat_outdata obj (8 + k) = List.getD (bytesLE 4 obj.o_mtime.tv_sec) k 0 := by
  intro k hk
  unfold stat_outdata
  rw [List.append_assoc,
    List.getD_append_right _ _ _ _ (by rw [bytesLE_length]; omega),
    bytesLE_length]
  have e : 8 + k - 8 = k := by omega
  rw [e]
  exact List.getD_append _ _ _ _ (by rw [bytesLE_length]; omega)

theorem stat_outdata_nsec_bytes (obj : ceph_osds_object) :
    ∀ k, k < 4 →
      stat_outdata obj (12 + k) = List.getD (bytesLE 4 obj.o_mtime.tv_nsec) k 0 := by
  intro k hk
  unfold stat_outdata
  rw [List.append_assoc,
    List.getD_append_right _ _ _ _ (by rw [bytesLE_length]; omega),
    bytesLE_length]
  have e : 12 + k - 8 = 4 + k := by omega
  rw [e, List.getD_append_right _ _ _ _ (by rw [bytesLE_length]; omega),
    bytesLE_length]
  have e2 : 4 + k - 4 = k := by omega
  rw [e2]

/-- C5: for an existing object, handle_osd_op_stat succeeds and emits a
16-byte owned reply buffer whose first 8 bytes are the little-endian u64
object size and whose next 8 bytes are the Timestamp (u32 seconds, then
u32 nanoseconds) of the mtime, in that order; for an absent object it
returns -ENOENT. -/
theorem stat_reply_size_then_mtime (st : Store) (hoid : Nat) (op : OsdOp) :
    match store_lookup st hoid with
    | some obj =>
        (handle_osd_op_stat st hoid op).1 = 0 ∧
        ((handle_osd_op_stat st hoid op).2).outdata_len = 16 ∧
        ((handle_osd_op_stat st hoid op).2).outdata = some (stat_outdata obj) ∧
        decodeLE (opBuf (handle_osd_op_stat st hoid op).2) 0 8 = obj.o_size % 2 ^ 64 ∧
        decodeLE (opBuf (handle_osd_op_stat st hoid op).2) 8 4 =
          obj.o_mtime.tv_sec % 2 ^ 32 ∧
        decodeLE (opBuf (handle_osd_op_stat st hoid op).2) 12 4 =
          obj.o_mtime.tv_nsec % 2 ^ 32
    | none => handle_osd_op_stat st hoid op = (-ENOENT, op) := by
  cases h : store_lookup st hoid with
  | none => simp [handle_osd_op_stat, h]
  | some obj =>
    have hred : handle_osd_op_stat st hoid op =
        (0, { op with outdata_len := 16, outdata := some (stat_outdata obj) }) := by
      simp [handle_osd_op_stat, h]
    rw [hred]
    have hbuf : opBuf { op with outdata_len := 16, outdata := some (stat_outdata obj) } =
        stat_outdata obj := rfl
    refine ⟨rfl, rfl, rfl, ?_, ?_, ?_⟩
    · rw [hbuf, decodeLE_bytesLE 8 obj.o_size 0 (stat_outdata obj)
        (stat_outdata_size_bytes obj)]
      norm_num
    · rw [hbuf, decodeLE_bytesLE 4 obj.o_mtime.tv_sec 8 (stat_outdata obj)
        (stat_outdata_sec_bytes obj)]
      norm_num
    · rw [hbuf, decodeLE_bytesLE 4 obj.o_mtime.tv_nsec 12 (stat_outdata obj)
        (stat_outdata_nsec_bytes obj)]
      norm_num

/-- C4: an inbound OSD_OP message whose encoded num_ops field is 17 is
accepted by ceph_decode_msg_osd_op: for any opcode table the function
returns 0 (success) rather than a decode error.  The source prints an
error and jumps to err on num_ops > CEPH_OSD_MAX_OPS, but the returned
ret is still the 0 left by the preceding ceph_oid_aprintf, so the caller
handle_osd_ops does not drop the message: it executes the request and
sends a reply. -/
theorem decode_num_ops_17_returns_success (known : Nat → Bool) :
    ceph_decode_msg_osd_op known crafted_num_ops_17_front = 0 ∧
    ceph_decode_msg_osd_op known crafted_num_ops_17_front ≠ -EINVAL := by
  constructor
  · rfl
  · rw [show ceph_decode_msg_osd_op known crafted_num_ops_17_front = 0 from rfl]
    decide

/-- C7 counterexample: the claim asserts the object created by a write
starts with zero mtime; the creation code (kmalloc, then o_size = 0 and
o_blocks = RB_ROOT, o_mtime never assigned) keeps the allocator residue,
so with residue (1, 1) the created object has size 0 and an empty block
map but a non-zero mtime. -/
theorem new_object_mtime_counterexample :
    (new_object { tv_sec := 1, tv_nsec := 1 }).o_size = 0 ∧
    (new_object { tv_sec := 1, tv_nsec := 1 }).o_blocks = [] ∧
    (new_object { tv_sec := 1, tv_nsec := 1 }).o_mtime ≠ { tv_sec := 0, tv_nsec := 0 } :=
  ⟨rfl, rfl, by decide⟩

/-- C7 amended: the object created by the write path starts with zero
size and an empty block map; its mtime is the indeterminate contents the
allocator left there (kmalloc without initialisation), not necessarily
zero. -/
theorem new_object_fields (junk : timespec64) :
    (new_object junk).o_size = 0 ∧ (new_object junk).o_blocks = [] ∧
      (new_object junk).o_mtime = junk :=
  ⟨rfl, rfl, rfl⟩

/-- C9 counterexample: advancing a cursor by more than its remaining
count does not decrease remaining() by exactly n: iterate_and_advance
clamps n to the count, so a 5-byte kvec cursor advanced by 7 ends with
count 0, a decrease of 5, not 7. -/
theorem cursor_advance_counterexample :
    ¬ ((iov_iter_advance exKvecIter 7).count + 7 = exKvecIter.count) := by
  decide

/-- C9 amended: for n at most the remaining count (counts being 64-bit
values), iov_iter_advance as well as a copy of n bytes through
_copy_from_iter decrease remaining() by exactly n, and the copy reports
exactly n bytes copied. -/
theorem cursor_advance_exact (i : IovIter) (n dstOff : Nat) (dst : Nat → Nat)
    (hn : n ≤ i.count) (hw : i.count < W64) :
    (iov_iter_advance i n).count + n = i.count ∧
    ((_copy_from_iter dst dstOff n i).2.2).count + n = i.count ∧
    (_copy_from_iter dst dstOff n i).2.1 = n := by
  rcases i with ⟨k, segs, skip, cnt⟩
  simp only at hn hw
  have hmin : min n cnt = n := Nat.min_eq_left hn
  have hiter : (iterateAndAdvance ⟨k, segs, skip, cnt⟩ n).count + n = cnt := by
    by_cases hc : cnt = 0
    · have hn0 : n = 0 := by omega
      subst hc; subst hn0
      simp [iterateAndAdvance]
    · have hcount : (iterateAndAdvance ⟨k, segs, skip, cnt⟩ n).count = cnt - n := by
        cases k <;> simp [iterateAndAdvance, hc, hmin]
      rw [hcount]; omega
  refine ⟨?_, ?_, ?_⟩
  · cases k
    case discard =>
      have hWval : W64 = 18446744073709551616 := by norm_num [W64]
      have hnW : n % W64 = n := Nat.mod_eq_of_lt (lt_of_le_of_lt hn hw)
      simp only [iov_iter_advance, hnW]
      rw [hWval] at hw ⊢
      have h1 : cnt + (18446744073709551616 - n) =
          (cnt - n) + 18446744073709551616 := by omega
      rw [h1, Nat.add_mod_right, Nat.mod_eq_of_lt (by omega)]
      omega
    all_goals simpa [iov_iter_advance] using hiter
  · simpa [_copy_from_iter] using hiter
  · simp [_copy_from_iter, hmin]

/-- C6: a READ whose offset is at or beyond the object size succeeds
with reply result 0 and outdata_len = 0 (no out-data attached), and both
the store and the shared input cursor are unchanged. -/
theorem read_past_eof (noop : Bool) (junkT : timespec64) (junkP : Nat → Nat)
    (hoid : Nat) (mtime : timespec64) (st : Store) (it : IovIter) (op : OsdOp)
    (obj : ceph_osds_object)
    (hop : op.op = OpCode.READ)
    (hobj : store_lookup st hoid = some obj)
    (heof : obj.o_size ≤ op.extent_offset)
    (hout : op.outdata_len = 0) :
    handle_osd_op noop junkT junkP hoid mtime st it op =
      some (0, { op with rval := 0 }, st, it) ∧
    ({ op with rval := 0 }).outdata_len = 0 := by
  rcases op with ⟨opc, fl, eo, el, rv, ol, od⟩
  simp only at hop heof hout
  subst hop
  constructor
  · simp [handle_osd_op, handle_osd_op_read, hobj, heof]
  · simpa using hout

/-- C6 witness: a concrete past-EOF read on a 10-byte object. -/
theorem read_past_eof_witness :
    handle_osd_op false { tv_sec := 0, tv_nsec := 0 } (fun _ => 0) 3
        { tv_sec := 0, tv_nsec := 0 } exStore exKvecIter exReadOp =
      some (0, { exReadOp with rval := 0 }, exStore, exKvecIter) ∧
    ({ exReadOp with rval := 0 }).outdata_len = 0 :=
  read_past_eof false { tv_sec := 0, tv_nsec := 0 } (fun _ => 0) 3
    { tv_sec := 0, tv_nsec := 0 } exStore exKvecIter exReadOp
    { o_size := 10, o_mtime := { tv_sec := 0, tv_nsec := 0 }, o_blocks := [] }
    rfl rfl (by decide) rfl

/-- C9 witness: a concrete in-bounds advance and copy of 3 of 5 bytes. -/
theorem cursor_advance_exact_witness :
    (iov_iter_advance exKvecIter 3).count + 3 = exKvecIter.count ∧
    ((_copy_from_iter (fun _ => 0) 0 3 exKvecIter).2.2).count + 3 = exKvecIter.count ∧
    (_copy_from_iter (fun _ => 0) 0 3 exKvecIter).2.1 = 3 :=
  cursor_advance_exact exKvecIter 3 0 (fun _ => 0) (by decide) (by decide)

/-! ## Write copy loop facts -/

theorem iterateAndAdvance_count (i : IovIter) (n : Nat) :
    (iterateAndAdvance i n).count = i.count - min n i.count := by
  rcases i with ⟨k, segs, skip, cnt⟩
  by_cases hc : cnt = 0
  · subst hc; simp [iterateAndAdvance]
  · cases k <;> simp [iterateAndAdvance, hc]

theorem next_dst_dst_len (bs : List ceph_osds_block) (off : Nat) :
    (next_dst bs off).2.2 = OSDS_BLOCK_SIZE - off % OSDS_BLOCK_SIZE := rfl

theorem copy_from_iter_iter (dst : Nat → Nat) (dstOff bytes : Nat) (i : IovIter) :
    (_copy_from_iter dst dstOff bytes i).2.2 = iterateAndAdvance i bytes := rfl

theorem step_len_eq_pos (st : WriteSt) (hd : st.dst_len = 0) :
    step_len st =
      min (min (iov_iter_count st.it) (next_dst st.blocks st.dst_off).2.2)
        st.len_write := by
  unfold step_len
  rw [next_dst_dst_len, if_pos hd]

theorem step_len_eq_neg (st : WriteSt) (hd : ¬ st.dst_len = 0) :
    step_len st = min (min (iov_iter_count st.it) st.dst_len) st.len_write := by
  unfold step_len
  rw [if_neg hd]

theorem step_len_le_count (st : WriteSt) : step_len st ≤ st.it.count := by
  unfold step_len
  exact le_trans (min_le_left _ _) (min_le_left _ _)

theorem write_step_len_write (st : WriteSt) :
    (write_step st).len_write = st.len_write - step_len st := by
  unfold write_step
  by_cases hd : st.dst_len = 0 <;> simp only [hd, ite_true, ite_false]
  · rw [step_len_eq_pos st hd]
    cases hblk : block_lookup (next_dst st.blocks st.dst_off).1
        (next_dst st.blocks st.dst_off).2.1 <;> simp [hblk]
  · rw [step_len_eq_neg st hd]
    cases hblk : block_lookup st.blocks st.blk_off <;> simp [hblk]

theorem write_step_count (st : WriteSt) :
    (write_step st).it.count = st.it.count - step_len st := by
  have hlen : ∀ d, min (min (iov_iter_count st.it) d) st.len_write ≤ st.it.count :=
    fun d => le_trans (min_le_left _ _) (min_le_left _ _)
  unfold write_step
  by_cases hd : st.dst_len = 0 <;> simp only [hd, ite_true, ite_false]
  · rw [step_len_eq_pos st hd]
    cases hblk : block_lookup (next_dst st.blocks st.dst_off).1
        (next_dst st.blocks st.dst_off).2.1 <;> simp only [hblk]
    all_goals
      simp only [copy_from_iter_iter, iterateAndAdvance_count]
      rw [Nat.min_eq_left (hlen _)]
  · rw [step_len_eq_neg st hd]
    cases hblk : block_lookup st.blocks st.blk_off <;> simp only [hblk]
    all_goals
      simp only [copy_from_iter_iter, iterateAndAdvance_count]
      rw [Nat.min_eq_left (hlen _)]

theorem write_step_dst_off (st : WriteSt) :
    (write_step st).dst_off = st.dst_off + step_len st := by
  unfold write_step
  by_cases hd : st.dst_len = 0 <;> simp only [hd, ite_true, ite_false]
  · rw [step_len_eq_pos st hd]
    cases hblk : block_lookup (next_dst st.blocks st.dst_off).1
        (next_dst st.blocks st.dst_off).2.1 <;> simp [hblk]
  · rw [step_len_eq_neg st hd]
    cases hblk : block_lookup st.blocks st.blk_off <;> simp [hblk]

theorem write_step_modified (st : WriteSt) :
    (write_step st).modified = true := by
  unfold write_step
  by_cases hd : st.dst_len = 0 <;> simp only [hd, ite_true, ite_false]
  · cases hblk : block_lookup (next_dst st.blocks st.dst_off).1
        (next_dst st.blocks st.dst_off).2.1 <;> simp [hblk]
  · cases hblk : block_lookup st.blocks st.blk_off <;> simp [hblk]

theorem write_step_counters (st : WriteSt) :
    (write_step st).len_write = st.len_write - step_len st ∧
    (write_step st).it.count = st.it.count - step_len st ∧
    (write_step st).dst_off = st.dst_off + step_len st ∧
    (write_step st).modified = true :=
  ⟨write_step_len_write st, write_step_count st, write_step_dst_off st,
    write_step_modified st⟩

theorem step_len_le_len_write (st : WriteSt) : step_len st ≤ st.len_write :=
  min_le_right _ _

theorem step_len_pos (st : WriteSt) (h0 : st.len_write ≠ 0)
    (hc : st.it.count ≠ 0) : 1 ≤ step_len st := by
  unfold step_len iov_iter_count
  have hBS : 0 < OSDS_BLOCK_SIZE := by norm_num [OSDS_BLOCK_SIZE]
  have hd : 1 ≤ (if st.dst_len = 0
      then OSDS_BLOCK_SIZE - st.dst_off % OSDS_BLOCK_SIZE else st.dst_len) := by
    split
    · have := Nat.mod_lt st.dst_off hBS
      omega
    · omega
  omega

theorem step_len_zero_of_empty (st : WriteSt) (hc : st.it.count = 0) :
    step_len st = 0 := by
  unfold step_len iov_iter_count
  omega

theorem write_loop_done (fuel : Nat) (st : WriteSt) (h : st.len_write = 0) :
    write_loop fuel st = some st := by
  cases fuel <;> simp [write_loop, h]

theorem write_loop_fuel_out (st : WriteSt) (h : st.len_write ≠ 0) :
    write_loop 0 st = none := by
  simp [write_loop, h]

theorem write_loop_succ (fuel : Nat) (st : WriteSt) (h : st.len_write ≠ 0) :
    write_loop (fuel + 1) st = write_loop fuel (write_step st) := by
  simp [write_loop, h]

theorem write_loop_isSome (fuel : Nat) : ∀ st : WriteSt,
    st.len_write ≤ fuel → st.len_write ≤ st.it.count →
    (write_loop fuel st).isSome = true := by
  induction fuel with
  | zero =>
    intro st h1 _h2
    have h0 : st.len_write = 0 := by omega
    rw [write_loop_done _ _ h0]
    rfl
  | succ fuel ih =>
    intro st h1 h2
    by_cases h0 : st.len_write = 0
    · rw [write_loop_done _ _ h0]; rfl
    · rw [write_loop_succ _ _ h0]
      obtain ⟨hc1, hc2, _, _⟩ := write_step_counters st
      have hcnt : st.it.count ≠ 0 := by omega
      have hs1 := step_len_pos st h0 hcnt
      exact ih (write_step st) (by omega) (by omega)

theorem write_loop_final (fuel : Nat) : ∀ st stf : WriteSt,
    write_loop fuel st = some stf →
    stf.len_write = 0 ∧
    stf.dst_off = st.dst_off + st.len_write ∧
    (st.len_write ≠ 0 → stf.modified = true) ∧
    (st.len_write = 0 → stf = st) := by
  induction fuel with
  | zero =>
    intro st stf h
    by_cases h0 : st.len_write = 0
    · rw [write_loop_done _ _ h0] at h
      cases h
      exact ⟨h0, by omega, fun hx => absurd h0 hx, fun _ => rfl⟩
    · rw [write_loop_fuel_out _ h0] at h
      exact absurd h (by simp)
  | succ fuel ih =>
    intro st stf h
    by_cases h0 : st.len_write = 0
    · rw [write_loop_done _ _ h0] at h
      cases h
      exact ⟨h0, by omega, fun hx => absurd h0 hx, fun _ => rfl⟩
    · rw [write_loop_succ _ _ h0] at h
      obtain ⟨hA, hB, hC, hD⟩ := ih (write_step st) stf h
      obtain ⟨hc1, _, hc3, hc4⟩ := write_step_counters st
      have hsle := step_len_le_len_write st
      refine ⟨hA, ?_, fun _ => ?_, fun hx => absurd hx h0⟩
      · rw [hB, hc3, hc1]; omega
      · by_cases hsz : (write_step st).len_write = 0
        · rw [hD hsz]; exact hc4
        · exact hC hsz

/-- C10: the write copy loop of handle_osd_op_write terminates whenever
the shared input cursor holds at least len_write bytes (fuel len_write
suffices); each iteration with a non-empty cursor and work left copies a
strictly positive chunk, so len_write strictly decreases; and once the
cursor is exhausted an iteration leaves len_write unchanged (the C loop
then spins forever). -/
theorem write_copy_loop_behaviour :
    (∀ st : WriteSt, st.len_write ≤ st.it.count →
      (write_loop st.len_write st).isSome = true) ∧
    (∀ st : WriteSt, st.len_write ≠ 0 → st.it.count ≠ 0 →
      (write_step st).len_write < st.len_write) ∧
    (∀ st : WriteSt, st.it.count = 0 →
      (write_step st).len_write = st.len_write) := by
  refine ⟨?_, ?_, ?_⟩
  · intro st h
    exact write_loop_isSome st.len_write st le_rfl h
  · intro st h0 hc
    obtain ⟨hc1, _, _, _⟩ := write_step_counters st
    have hs1 := step_len_pos st h0 hc
    have hsle := step_len_le_len_write st
    omega
  · intro st hc
    obtain ⟨hc1, _, _, _⟩ := write_step_counters st
    have := step_len_zero_of_empty st hc
    omega

/-- C10 witness: a 3-byte write fed from 5 available bytes terminates
and makes strict progress; with an exhausted cursor the step makes no
progress. -/
theorem write_copy_loop_behaviour_witness :
    (write_loop exWriteSt.len_write exWriteSt).isSome = true ∧
    (write_step exWriteSt).len_write < exWriteSt.len_write ∧
    (write_step exWriteStEmpty).len_write = exWriteStEmpty.len_write :=
  ⟨write_copy_loop_behaviour.1 exWriteSt (by decide),
   write_copy_loop_behaviour.2.1 exWriteSt (by decide) (by decide),
   write_copy_loop_behaviour.2.2 exWriteStEmpty (by decide)⟩

theorem store_lookup_insert (st : Store) (hoid : Nat) (obj : ceph_osds_object) :
    store_lookup (store_insert st hoid obj) hoid = some obj := by
  simp [store_lookup, store_insert]

theorem ite_lt_eq_max (a b : Nat) : (if a < b then b else a) = max a b := by
  rcases Nat.lt_or_ge a b with h | h
  · rw [if_pos h, Nat.max_eq_right (le_of_lt h)]
  · rw [if_neg (Nat.not_lt.mpr h), Nat.max_eq_left h]

/-- C3: a successful write of positive length through the copy path sets
the object mtime to the request mtime and its size to
max(previous size, offset + length written); READ and STAT leave the
store untouched, hence change no object mtime or size. -/
theorem write_sets_mtime_size_read_stat_pure :
    (∀ (noop : Bool) (junkT : timespec64) (st : Store) (hoid : Nat)
        (mtime : timespec64) (op : OsdOp) (it : IovIter)
        (out : Int × Store × IovIter),
      op.extent_length ≠ 0 →
      ¬(noop = true ∧ 4096 ≤ op.extent_length) →
      handle_osd_op_write noop junkT st hoid mtime op it = some out →
      out.1 = 0 ∧
      (store_lookup out.2.1 hoid).map (fun o => (o.o_mtime, o.o_size)) =
        some (mtime,
          max ((store_lookup st hoid).elim 0 (fun o => o.o_size))
            (op.extent_offset + op.extent_length))) ∧
    (∀ (noop : Bool) (junkT : timespec64) (junkP : Nat → Nat) (hoid : Nat)
        (mtime : timespec64) (st : Store) (it : IovIter) (op : OsdOp),
      op.op = OpCode.READ ∨ op.op = OpCode.STAT →
      (handle_osd_op noop junkT junkP hoid mtime st it op).map
          (fun x => x.2.2.1) = some st) := by
  constructor
  · intro noop junkT st hoid mtime op it out hlen hnoop h
    simp only [handle_osd_op_write, if_neg hlen, if_neg hnoop] at h
    cases hobjEq : store_lookup st hoid with
    | some o =>
      rw [hobjEq] at h
      split at h
      · exact absurd h (by simp)
      · next stf hwl =>
        obtain ⟨hA, hB, hC, _⟩ := write_loop_final _ _ _ hwl
        have hmod : stf.modified = true := hC (by simpa using hlen)
        simp only at hB
        injection h with h2
        subst h2
        refine ⟨rfl, ?_⟩
        rw [if_pos hmod]
        simp only [store_lookup_insert, Option.map_some, hobjEq, Option.elim]
        rw [hB, ite_lt_eq_max]
        rfl
    | none =>
      rw [hobjEq] at h
      split at h
      · exact absurd h (by simp)
      · next stf hwl =>
        obtain ⟨hA, hB, hC, _⟩ := write_loop_final _ _ _ hwl
        have hmod : stf.modified = true := hC (by simpa using hlen)
        simp only [new_object] at hB
        injection h with h2
        subst h2
        refine ⟨rfl, ?_⟩
        rw [if_pos hmod]
        simp only [store_lookup_insert, Option.map_some, hobjEq, Option.elim]
        simp only [new_object]
        rw [hB, ite_lt_eq_max]
        rfl
  · intro noop junkT junkP hoid mtime st it op hop
    rcases op with ⟨opc, fl, eo, el, rv, ol, od⟩
    rcases hop with hop | hop <;> simp only at hop <;> subst hop <;>
      simp [handle_osd_op]

/-- C3 witness: a concrete 3-byte write into an empty store with request
mtime (42, 1), and a concrete READ that leaves the store unchanged. -/
theorem write_sets_mtime_size_read_stat_pure_witness :
    (((handle_osd_op_write false { tv_sec := 7, tv_nsec := 7 } [] 0
          { tv_sec := 42, tv_nsec := 1 } exWriteOp exKvecIter).getD
        (0, [], exKvecIter)).1 = 0 ∧
      (store_lookup
          ((handle_osd_op_write false { tv_sec := 7, tv_nsec := 7 } [] 0
              { tv_sec := 42, tv_nsec := 1 } exWriteOp exKvecIter).getD
            (0, [], exKvecIter)).2.1 0).map (fun o => (o.o_mtime, o.o_size)) =
        some ({ tv_sec := 42, tv_nsec := 1 },
          max ((store_lookup [] 0).elim 0 (fun o => o.o_size))
            (exWriteOp.extent_offset + exWriteOp.extent_length))) ∧
    (handle_osd_op false { tv_sec := 0, tv_nsec := 0 } (fun _ => 0) 3
        { tv_sec := 0, tv_nsec := 0 } exStore exKvecIter exReadOp).map
      (fun x => x.2.2.1) = some exStore :=
  ⟨write_sets_mtime_size_read_stat_pure.1 false { tv_sec := 7, tv_nsec := 7 } [] 0
      { tv_sec := 42, tv_nsec := 1 } exWriteOp exKvecIter
      ((handle_osd_op_write false { tv_sec := 7, tv_nsec := 7 } [] 0
          { tv_sec := 42, tv_nsec := 1 } exWriteOp exKvecIter).getD
        (0, [], exKvecIter))
      (by decide) (by decide) rfl,
   write_sets_mtime_size_read_stat_pure.2 false { tv_sec := 0, tv_nsec := 0 }
      (fun _ => 0) 3 { tv_sec := 0, tv_nsec := 0 } exStore exKvecIter exReadOp
      (Or.inl rfl)⟩

/-! ## FAILOK policy of the op loop -/

theorem ops_loop_append (noop : Bool) (junkT : timespec64) (junkP : Nat → Nat)
    (hoid : Nat) (mtime : timespec64) :
    ∀ (pre rest : List OsdOp) (st : Store) (it : IovIter)
      (pre2 : List OsdOp) (st1 : Store) (it1 : IovIter),
    handle_osd_ops_loop noop junkT junkP hoid mtime pre st it =
      some (0, pre2, st1, it1, pre.length) →
    handle_osd_ops_loop noop junkT junkP hoid mtime (pre ++ rest) st it =
      (handle_osd_ops_loop noop junkT junkP hoid mtime rest st1 it1).map
        (fun x => (x.1, pre2 ++ x.2.1, x.2.2.1, x.2.2.2.1,
          pre.length + x.2.2.2.2)) := by
  intro pre
  induction pre with
  | nil =>
    intro rest st it pre2 st1 it1 h
    simp only [handle_osd_ops_loop, List.length_nil] at h
    injection h with h
    simp only [Prod.mk.injEq] at h
    obtain ⟨-, h2, h3, h4, -⟩ := h
    subst h2; subst h3; subst h4
    simp only [List.nil_append, List.length_nil, Nat.zero_add]
    cases ho : handle_osd_ops_loop noop junkT junkP hoid mtime rest st it <;> simp
  | cons p ps ih =>
    intro rest st it pre2 st1 it1 h
    rw [List.cons_append]
    simp only [handle_osd_ops_loop] at h ⊢
    cases hop : handle_osd_op noop junkT junkP hoid mtime st it p with
    | none => rw [hop] at h; exact absurd h (by simp)
    | some r =>
      rcases r with ⟨ret, op2, st2, it2⟩
      rw [hop] at h
      dsimp only at h ⊢
      by_cases hr : (if ret ≠ 0 ∧ has_failok p.flags = true ∧ ret ≠ -EAGAIN ∧
          ret ≠ -EINPROGRESS then (0 : Int) else ret) ≠ 0
      · rw [if_pos hr] at h
        injection h with h
        simp only [Prod.mk.injEq] at h
        exact absurd h.1 hr
      · rw [if_neg hr] at h
        rw [if_neg hr]
        cases hq : handle_osd_ops_loop noop junkT junkP hoid mtime ps st2 it2 with
        | none =>
          rw [hq] at h
          exact absurd h (by simp)
        | some q =>
          rcases q with ⟨qr, qops, qst, qit, qn⟩
          rw [hq] at h
          dsimp only at h
          injection h with h
          simp only [Prod.mk.injEq, List.length_cons] at h
          obtain ⟨hq1, hq2, hq3, hq4, hq5⟩ := h
          subst hq2; subst hq3; subst hq4
          have hqn : qn = ps.length := by omega
          subst hqn; subst hq1
          have hcomp := ih rest st2 it2 qops qst qit hq
          rw [hcomp]
          cases hrest : handle_osd_ops_loop noop junkT junkP hoid mtime rest qst qit with
          | none => rfl
          | some x =>
            have harith : ps.length + x.2.2.2.2 + 1 = ps.length + 1 + x.2.2.2.2 := by
              omega
            simp [harith]

/-- C1: FAILOK policy of handle_osd_ops.  After a passing prefix, if op
a fails with FAILOK set and a result that is neither -EAGAIN nor
-EINPROGRESS, the failure is swallowed: the loop continues into the
remaining ops exactly as if it had started there with result 0 (so the
overall result is whatever the remaining ops produce, 0 if they all
pass, and the executed-op count keeps growing).  If a fails without
FAILOK, the loop short-circuits: the overall result is the rval of a,
the ops after a are returned exactly as decoded (rval still 0) and the
executed count stops at the failing op. -/
theorem failok_policy (noop : Bool) (junkT : timespec64) (junkP : Nat → Nat)
    (hoid : Nat) (mtime : timespec64)
    (pre : List OsdOp) (a : OsdOp) (post : List OsdOp) (st : Store)
    (it : IovIter) (pre2 : List OsdOp) (st1 : Store) (it1 : IovIter)
    (ret : Int) (a2 : OsdOp) (st2 : Store) (it2 : IovIter)
    (hpre : handle_osd_ops_loop noop junkT junkP hoid mtime pre st it =
      some (0, pre2, st1, it1, pre.length))
    (ha : handle_osd_op noop junkT junkP hoid mtime st1 it1 a =
      some (ret, a2, st2, it2))
    (hfail : ret ≠ 0) :
    ((has_failok a.flags = true ∧ ret ≠ -EAGAIN ∧ ret ≠ -EINPROGRESS) →
      handle_osd_ops_loop noop junkT junkP hoid mtime (pre ++ a :: post) st it =
        (handle_osd_ops_loop noop junkT junkP hoid mtime post st2 it2).map
          (fun x => (x.1, pre2 ++ a2 :: x.2.1, x.2.2.1, x.2.2.2.1,
            pre.length + (1 + x.2.2.2.2)))) ∧
    (has_failok a.flags = false →
      handle_osd_ops_loop noop junkT junkP hoid mtime (pre ++ a :: post) st it =
        some (ret, pre2 ++ a2 :: post, st2, it2, pre.length + 1)) := by
  have happ := ops_loop_append noop junkT junkP hoid mtime pre (a :: post)
    st it pre2 st1 it1 hpre
  rw [happ]
  constructor
  · rintro ⟨hfo, hag, hip⟩
    have hcond : ret ≠ 0 ∧ has_failok a.flags = true ∧ ret ≠ -EAGAIN ∧
        ret ≠ -EINPROGRESS := ⟨hfail, hfo, hag, hip⟩
    simp only [handle_osd_ops_loop, ha, if_pos hcond, ne_eq,
      not_true_eq_false, if_neg (by simp : ¬ ((0:Int) ≠ 0))]
    cases hpost : handle_osd_ops_loop noop junkT junkP hoid mtime post st2 it2 with
    | none => simp [hpost]
    | some q =>
      rcases q with ⟨qr, qops, qst, qit, qn⟩
      have harith : pre.length + (qn + 1) = pre.length + (1 + qn) := by omega
      simp [hpost, harith]
  · intro hfo
    have hcond : ¬ (ret ≠ 0 ∧ has_failok a.flags = true ∧ ret ≠ -EAGAIN ∧
        ret ≠ -EINPROGRESS) := by
      rintro ⟨-, hx, -, -⟩
      rw [hfo] at hx
      exact Bool.false_ne_true hx
    simp only [handle_osd_ops_loop, ha, if_neg hcond, if_pos hfail]
    simp

/-- C1 witness: an empty prefix, a failing FAILOK STAT on an absent
object, and one READ op after it. -/
theorem failok_policy_witness :
    ((has_failok exStatOpFailok.flags = true ∧ (-ENOENT : Int) ≠ -EAGAIN ∧
        (-ENOENT : Int) ≠ -EINPROGRESS) →
      handle_osd_ops_loop false { tv_sec := 0, tv_nsec := 0 } (fun _ => 0) 9
          { tv_sec := 0, tv_nsec := 0 }
          (([] : List OsdOp) ++ exStatOpFailok :: [exReadOp]) [] exKvecIter =
        (handle_osd_ops_loop false { tv_sec := 0, tv_nsec := 0 } (fun _ => 0) 9
            { tv_sec := 0, tv_nsec := 0 } [exReadOp] [] exKvecIter).map
          (fun x => (x.1,
            ([] : List OsdOp) ++ { exStatOpFailok with rval := -ENOENT } :: x.2.1,
            x.2.2.1, x.2.2.2.1, ([] : List OsdOp).length + (1 + x.2.2.2.2)))) ∧
    (has_failok exStatOpFailok.flags = false →
      handle_osd_ops_loop false { tv_sec := 0, tv_nsec := 0 } (fun _ => 0) 9
          { tv_sec := 0, tv_nsec := 0 }
          (([] : List OsdOp) ++ exStatOpFailok :: [exReadOp]) [] exKvecIter =
        some (-ENOENT,
          ([] : List OsdOp) ++ { exStatOpFailok with rval := -ENOENT } :: [exReadOp],
          [], exKvecIter, ([] : List OsdOp).length + 1)) :=
  failok_policy false { tv_sec := 0, tv_nsec := 0 } (fun _ => 0) 9
    { tv_sec := 0, tv_nsec := 0 } [] exStatOpFailok [exReadOp] [] exKvecIter
    [] [] exKvecIter (-ENOENT) { exStatOpFailok with rval := -ENOENT }
    [] exKvecIter rfl rfl (by decide)

/-! ## Block tree invariant: alignment and disjointness -/

theorem insert_block_mem (bs : List ceph_osds_block) (nb b : ceph_osds_block) :
    b ∈ insert_block bs nb ↔ b = nb ∨ b ∈ bs := by
  induction bs with
  | nil => simp [insert_block]
  | cons x rest ih =>
    by_cases hx : nb.b_off < x.b_off
    · simp only [insert_block, if_pos hx, List.mem_cons]
    · simp only [insert_block, if_neg hx, List.mem_cons, ih]
      tauto

theorem insert_block_sorted (bs : List ceph_osds_block) (nb : ceph_osds_block)
    (hs : List.Pairwise (fun a b => a.b_off < b.b_off) bs)
    (hne : ∀ b ∈ bs, b.b_off ≠ nb.b_off) :
    List.Pairwise (fun a b => a.b_off < b.b_off) (insert_block bs nb) := by
  induction bs with
  | nil => simp [insert_block]
  | cons x rest ih =>
    rw [List.pairwise_cons] at hs
    obtain ⟨hx, hrest⟩ := hs
    by_cases hlt : nb.b_off < x.b_off
    · rw [insert_block, if_pos hlt]
      refine List.Pairwise.cons ?_ (List.pairwise_cons.mpr ⟨hx, hrest⟩)
      intro y hy
      rcases List.mem_cons.mp hy with rfl | hy2
      · exact hlt
      · exact lt_trans hlt (hx y hy2)
    · have hgt : x.b_off < nb.b_off := by
        have := hne x (by simp)
        omega
      rw [insert_block, if_neg hlt]
      refine List.Pairwise.cons ?_ (ih hrest (fun b hb => hne b (by simp [hb])))
      intro y hy
      rcases (insert_block_mem rest nb y).mp hy with rfl | hy2
      · exact hgt
      · exact hx y hy2

theorem ALIGN_DOWN_aligned (x : Nat) : ALIGN_DOWN x % OSDS_BLOCK_SIZE = 0 := by
  unfold ALIGN_DOWN
  exact Nat.mul_mod_right _ _

theorem next_dst_wf (bs : List ceph_osds_block) (off : Nat) (h : blocks_wf bs) :
    blocks_wf (next_dst bs off).1 := by
  cases hlk : block_lookup bs (ALIGN_DOWN off) with
  | some blk =>
    have h1 : (next_dst bs off).1 = bs := by simp [next_dst, hlk]
    rw [h1]
    exact h
  | none =>
    have h1 : (next_dst bs off).1 =
        insert_block bs { b_off := ALIGN_DOWN off, b_data := fun _ => 0 } := by
      simp [next_dst, hlk]
    rw [h1]
    obtain ⟨hs, ha⟩ := h
    have hne : ∀ b ∈ bs,
        b.b_off ≠ ({ b_off := ALIGN_DOWN off, b_data := fun _ => 0 } :
          ceph_osds_block).b_off := by
      intro b hb
      have hx := List.find?_eq_none.mp hlk b hb
      simpa using hx
    constructor
    · exact insert_block_sorted bs
        { b_off := ALIGN_DOWN off, b_data := fun _ => 0 } hs hne
    · intro b hb
      rcases (insert_block_mem bs
          { b_off := ALIGN_DOWN off, b_data := fun _ => 0 } b).mp hb with rfl | hb2
      · exact ALIGN_DOWN_aligned off
      · exact ha b hb2

theorem blocks_wf_map (bs : List ceph_osds_block)
    (f : ceph_osds_block → ceph_osds_block)
    (hf : ∀ b, (f b).b_off = b.b_off) (h : blocks_wf bs) :
    blocks_wf (bs.map f) := by
  obtain ⟨hs, ha⟩ := h
  constructor
  · rw [List.pairwise_map]
    exact hs.imp (fun hab => by rw [hf, hf]; exact hab)
  · intro b hb
    rcases List.mem_map.mp hb with ⟨a, ha2, rfl⟩
    rw [hf]
    exact ha a ha2

theorem write_step_wf (st : WriteSt) (h : blocks_wf st.blocks) :
    blocks_wf (write_step st).blocks := by
  unfold write_step
  by_cases hd : st.dst_len = 0 <;> simp only [hd, ite_true, ite_false]
  · have hnext := next_dst_wf st.blocks st.dst_off h
    cases hblk : block_lookup (next_dst st.blocks st.dst_off).1
        (next_dst st.blocks st.dst_off).2.1 <;> simp only [hblk]
    · exact hnext
    · exact blocks_wf_map _ _ (fun b => by split <;> rfl) hnext
  · cases hblk : block_lookup st.blocks st.blk_off <;> simp only [hblk]
    · exact h
    · exact blocks_wf_map _ _ (fun b => by split <;> rfl) h

theorem write_loop_wf (fuel : Nat) : ∀ st stf : WriteSt,
    write_loop fuel st = some stf → blocks_wf st.blocks → blocks_wf stf.blocks := by
  induction fuel with
  | zero =>
    intro st stf h hwf
    by_cases h0 : st.len_write = 0
    · rw [write_loop_done _ _ h0] at h
      cases h
      exact hwf
    · rw [write_loop_fuel_out _ h0] at h
      exact absurd h (by simp)
  | succ fuel ih =>
    intro st stf h hwf
    by_cases h0 : st.len_write = 0
    · rw [write_loop_done _ _ h0] at h
      cases h
      exact hwf
    · rw [write_loop_succ _ _ h0] at h
      exact ih _ _ h (write_step_wf st hwf)

theorem store_lookup_wf (st : Store) (hoid : Nat) (obj : ceph_osds_object)
    (hwf : store_wf st) (h : store_lookup st hoid = some obj) :
    blocks_wf obj.o_blocks := by
  unfold store_lookup at h
  cases hf : List.find? (fun e => e.1 == hoid) st with
  | none => rw [hf] at h; exact absurd h (by simp)
  | some e =>
    rw [hf] at h
    injection h with h
    subst h
    exact hwf e (List.mem_of_find?_eq_some hf)

theorem store_insert_wf (st : Store) (hoid : Nat) (obj : ceph_osds_object)
    (hwf : store_wf st) (hobj : blocks_wf obj.o_blocks) :
    store_wf (store_insert st hoid obj) := by
  intro e he
  unfold store_insert at he
  rcases List.mem_cons.mp he with rfl | he2
  · exact hobj
  · exact hwf e (List.mem_filter.mp he2).1

theorem handle_osd_op_write_wf (noop : Bool) (junkT : timespec64) (st : Store)
    (hoid : Nat) (mtime : timespec64) (op : OsdOp) (it : IovIter)
    (out : Int × Store × IovIter)
    (h : handle_osd_op_write noop junkT st hoid mtime op it = some out)
    (hwf : store_wf st) : store_wf out.2.1 := by
  unfold handle_osd_op_write at h
  split at h
  · cases h; exact hwf
  · split at h
    · cases h; exact hwf
    · cases hobjEq : store_lookup st hoid with
      | some o =>
        rw [hobjEq] at h
        dsimp only at h
        have hobjwf : blocks_wf o.o_blocks := store_lookup_wf st hoid o hwf hobjEq
        split at h
        · exact absurd h (by simp)
        · next stf heq =>
          cases h
          have hstf := write_loop_wf _ _ _ heq hobjwf
          refine store_insert_wf st hoid _ hwf ?_
          split <;> exact hstf
      | none =>
        rw [hobjEq] at h
        dsimp only at h
        have hobjwf : blocks_wf (new_object junkT).o_blocks :=
          ⟨List.Pairwise.nil, by simp [new_object]⟩
        split at h
        · exact absurd h (by simp)
        · next stf heq =>
          cases h
          have hstf := write_loop_wf _ _ _ heq hobjwf
          refine store_insert_wf st hoid _ hwf ?_
          split <;> exact hstf

theorem handle_osd_op_wf (noop : Bool) (junkT : timespec64) (junkP : Nat → Nat)
    (hoid : Nat) (mtime : timespec64) (st : Store) (it : IovIter) (op : OsdOp)
    (out : Int × OsdOp × Store × IovIter)
    (h : handle_osd_op noop junkT junkP hoid mtime st it op = some out)
    (hwf : store_wf st) : store_wf out.2.2.1 := by
  unfold handle_osd_op at h
  split at h
  · cases hw : handle_osd_op_write noop junkT st hoid mtime op it with
    | none => rw [hw] at h; exact absurd h (by simp)
    | some r =>
      rcases r with ⟨ret, st2, it2⟩
      rw [hw] at h
      dsimp only at h
      cases h
      exact handle_osd_op_write_wf noop junkT st hoid mtime op it _ hw hwf
  · cases h; exact hwf
  · cases h; exact hwf
  · cases h; exact hwf

theorem ops_loop_wf (noop : Bool) (junkT : timespec64) (junkP : Nat → Nat)
    (hoid : Nat) (mtime : timespec64) :
    ∀ (ops : List OsdOp) (st : Store) (it : IovIter)
      (r : Int × List OsdOp × Store × IovIter × Nat),
    handle_osd_ops_loop noop junkT junkP hoid mtime ops st it = some r →
    store_wf st → store_wf r.2.2.1 := by
  intro ops
  induction ops with
  | nil =>
    intro st it r h hwf
    unfold handle_osd_ops_loop at h
    cases h
    exact hwf
  | cons p ps ih =>
    intro st it r h hwf
    unfold handle_osd_ops_loop at h
    cases hop : handle_osd_op noop junkT junkP hoid mtime st it p with
    | none => rw [hop] at h; exact absurd h (by simp)
    | some q =>
      rcases q with ⟨ret, op2, st2, it2⟩
      rw [hop] at h
      dsimp only at h
      have hwf2 : store_wf st2 :=
        handle_osd_op_wf noop junkT junkP hoid mtime st it p _ hop hwf
      by_cases hbrk : (if ret ≠ 0 ∧ has_failok p.flags = true ∧ ret ≠ -EAGAIN ∧
          ret ≠ -EINPROGRESS then (0 : Int) else ret) ≠ 0
      · rw [if_pos hbrk] at h
        cases h
        exact hwf2
      · rw [if_neg hbrk] at h
        cases hq : handle_osd_ops_loop noop junkT junkP hoid mtime ps st2 it2 with
        | none => rw [hq] at h; exact absurd h (by simp)
        | some q2 =>
          rcases q2 with ⟨qr, qops, qst, qit, qn⟩
          rw [hq] at h
          dsimp only at h
          cases h
          exact ih st2 it2 (qr, qops, qst, qit, qn) hq hwf2

theorem apply_request_wf (noop : Bool) (junkT : timespec64) (junkP : Nat → Nat)
    (st : Store) (r : OsdRequest) (st2 : Store)
    (h : apply_request noop junkT junkP st r = some st2) (hwf : store_wf st) :
    store_wf st2 := by
  unfold apply_request at h
  cases hl : handle_osd_ops_loop noop junkT junkP r.hoid r.mtime r.ops st r.it with
  | none => rw [hl] at h; exact absurd h (by simp)
  | some x =>
    rw [hl] at h
    injection h with h
    subst h
    exact ops_loop_wf noop junkT junkP r.hoid r.mtime r.ops st r.it x hl hwf

theorem apply_requests_wf (noop : Bool) (junkT : timespec64) (junkP : Nat → Nat) :
    ∀ (rs : List OsdRequest) (st st2 : Store),
    apply_requests noop junkT junkP st rs = some st2 → store_wf st →
    store_wf st2 := by
  intro rs
  induction rs with
  | nil =>
    intro st st2 h hwf
    unfold apply_requests at h
    cases h
    exact hwf
  | cons r rest ih =>
    intro st st2 h hwf
    unfold apply_requests at h
    cases ha : apply_request noop junkT junkP st r with
    | none => rw [ha] at h; exact absurd h (by simp)
    | some stm =>
      rw [ha] at h
      exact ih stm st2 h (apply_request_wf noop junkT junkP st r stm ha hwf)

theorem blocks_wf_aligned_disjoint (bs : List ceph_osds_block)
    (h : blocks_wf bs) : blocks_aligned_disjoint bs := by
  obtain ⟨hs, ha⟩ := h
  refine ⟨ha, ?_⟩
  refine List.Pairwise.imp_of_mem ?_ hs
  intro a b hma hmb hab
  left
  obtain ⟨x, hx⟩ := Nat.dvd_of_mod_eq_zero (ha a hma)
  obtain ⟨y, hy⟩ := Nat.dvd_of_mod_eq_zero (ha b hmb)
  have hBS : 0 < OSDS_BLOCK_SIZE := by norm_num [OSDS_BLOCK_SIZE]
  rw [hx, hy] at hab ⊢
  have hxy : x < y := lt_of_mul_lt_mul_left hab (le_of_lt hBS)
  calc OSDS_BLOCK_SIZE * x + OSDS_BLOCK_SIZE = OSDS_BLOCK_SIZE * (x + 1) := by ring
    _ ≤ OSDS_BLOCK_SIZE * y := Nat.mul_le_mul_left _ hxy

/-- C8: starting from the empty object table, after any sequence of
requests that the server completes, every block of every object has an
offset that is a multiple of OSDS_BLOCK_SIZE (64 KiB) and any two
distinct blocks of one object are disjoint (separated by at least a
block size). -/
theorem blocks_stay_aligned_disjoint (noop : Bool) (junkT : timespec64)
    (junkP : Nat → Nat) (reqs : List OsdRequest) (st : Store)
    (h : apply_requests noop junkT junkP [] reqs = some st) :
    ∀ e ∈ st, blocks_aligned_disjoint e.2.o_blocks := by
  intro e he
  have hwf := apply_requests_wf noop junkT junkP reqs [] st h
    (by intro x hx; cases hx)
  exact blocks_wf_aligned_disjoint _ (hwf e he)

/-- C8 witness: the object reached by one concrete 3-byte write request
has aligned, pairwise disjoint blocks. -/
theorem blocks_stay_aligned_disjoint_witness :
    blocks_aligned_disjoint
      ((((apply_requests false { tv_sec := 0, tv_nsec := 0 } (fun _ => 0) []
          [exWriteRequest]).getD []).get ⟨0, by decide⟩).2.o_blocks) :=
  blocks_stay_aligned_disjoint false { tv_sec := 0, tv_nsec := 0 } (fun _ => 0)
    [exWriteRequest]
    ((apply_requests false { tv_sec := 0, tv_nsec := 0 } (fun _ => 0) []
        [exWriteRequest]).getD [])
    rfl
    (((apply_requests false { tv_sec := 0, tv_nsec := 0 } (fun _ => 0) []
        [exWriteRequest]).getD []).get ⟨0, by decide⟩)
    (List.get_mem _ _ _)

/-! ## Block alignment arithmetic -/

theorem OSDS_BLOCK_SIZE_pos : 0 < OSDS_BLOCK_SIZE := by
  norm_num [OSDS_BLOCK_SIZE]

theorem ALIGN_DOWN_le (x : Nat) : ALIGN_DOWN x ≤ x := by
  unfold ALIGN_DOWN
  rw [Nat.mul_comm]
  exact Nat.div_mul_le_self x OSDS_BLOCK_SIZE

theorem lt_ALIGN_DOWN_add (x : Nat) : x < ALIGN_DOWN x + OSDS_BLOCK_SIZE := by
  have hdm := Nat.div_add_mod x OSDS_BLOCK_SIZE
  have hlt := Nat.mod_lt x OSDS_BLOCK_SIZE_pos
  unfold ALIGN_DOWN
  omega

theorem aligned_le_ALIGN_DOWN {b x : Nat} (hb : b % OSDS_BLOCK_SIZE = 0)
    (hbx : b ≤ x) : b ≤ ALIGN_DOWN x := by
  obtain ⟨k, hk⟩ := Nat.dvd_of_mod_eq_zero hb
  have hdiv : k ≤ x / OSDS_BLOCK_SIZE :=
    (Nat.le_div_iff_mul_le OSDS_BLOCK_SIZE_pos).mpr (by rw [Nat.mul_comm]; omega)
  unfold ALIGN_DOWN
  calc b = OSDS_BLOCK_SIZE * k := hk
    _ ≤ OSDS_BLOCK_SIZE * (x / OSDS_BLOCK_SIZE) := Nat.mul_le_mul_left _ hdiv

theorem aligned_lt_add_le {a b : Nat} (ha : a % OSDS_BLOCK_SIZE = 0)
    (hb : b % OSDS_BLOCK_SIZE = 0) (hab : a < b) :
    a + OSDS_BLOCK_SIZE ≤ b := by
  obtain ⟨x, hx⟩ := Nat.dvd_of_mod_eq_zero ha
  obtain ⟨y, hy⟩ := Nat.dvd_of_mod_eq_zero hb
  subst hx; subst hy
  have hxy : x < y := lt_of_mul_lt_mul_left hab (Nat.zero_le _)
  calc OSDS_BLOCK_SIZE * x + OSDS_BLOCK_SIZE = OSDS_BLOCK_SIZE * (x + 1) := by ring
    _ ≤ OSDS_BLOCK_SIZE * y := Nat.mul_le_mul_left _ hxy

theorem aligned_eq_ALIGN_DOWN {b x : Nat} (hb : b % OSDS_BLOCK_SIZE = 0)
    (h1 : b ≤ x) (h2 : x < b + OSDS_BLOCK_SIZE) : b = ALIGN_DOWN x := by
  have hle := aligned_le_ALIGN_DOWN hb h1
  have had := ALIGN_DOWN_aligned x
  have hADle := ALIGN_DOWN_le x
  rcases Nat.lt_or_ge b (ALIGN_DOWN x) with hlt | hge
  · have := aligned_lt_add_le hb had hlt
    omega
  · omega

theorem aligned_mod_sub {b x : Nat} (hb : b % OSDS_BLOCK_SIZE = 0)
    (h1 : b ≤ x) (h2 : x < b + OSDS_BLOCK_SIZE) :
    x % OSDS_BLOCK_SIZE = x - b := by
  obtain ⟨k, hk⟩ := Nat.dvd_of_mod_eq_zero hb
  calc x % OSDS_BLOCK_SIZE
      = (OSDS_BLOCK_SIZE * k + (x - b)) % OSDS_BLOCK_SIZE := by
        congr 1
        omega
    _ = (x - b) % OSDS_BLOCK_SIZE := Nat.mul_add_mod _ _ _
    _ = x - b := Nat.mod_eq_of_lt (by omega)

/-! ## Read byte specification lemmas -/

theorem covering_block_none (bs : List ceph_osds_block) (q : Nat)
    (h : ∀ b ∈ bs, ¬ (b.b_off ≤ q ∧ q < b.b_off + OSDS_BLOCK_SIZE)) :
    covering_block bs q = none := by
  unfold covering_block
  rw [List.find?_eq_none]
  intro b hb
  simpa using h b hb

theorem cover_byte_none (bs : List ceph_osds_block) (q : Nat)
    (h : ∀ b ∈ bs, ¬ (b.b_off ≤ q ∧ q < b.b_off + OSDS_BLOCK_SIZE)) :
    cover_byte bs q = 0 := by
  unfold cover_byte
  rw [covering_block_none bs q h]

theorem cover_byte_cons_skip (blk : ceph_osds_block)
    (rest : List ceph_osds_block) (q : Nat)
    (h : ¬ (blk.b_off ≤ q ∧ q < blk.b_off + OSDS_BLOCK_SIZE)) :
    cover_byte (blk :: rest) q = cover_byte rest q := by
  unfold cover_byte covering_block
  rw [List.find?_cons_of_neg _ (by simpa using h)]

theorem cover_byte_cons_hit (blk : ceph_osds_block)
    (rest : List ceph_osds_block) (q : Nat)
    (h1 : blk.b_off ≤ q) (h2 : q < blk.b_off + OSDS_BLOCK_SIZE) :
    cover_byte (blk :: rest) q = blk.b_data (q - blk.b_off) := by
  unfold cover_byte covering_block
  rw [List.find?_cons_of_pos _ (by simpa using ⟨h1, h2⟩)]

/-! ## Read loop specification -/

theorem read_hole_step_spec (blk : ceph_osds_block) (s : ReadSt) :
    (read_hole_step blk s).len_read ≤ s.len_read ∧
    (read_hole_step blk s).off_inpg + (read_hole_step blk s).len_read =
      s.off_inpg + s.len_read ∧
    (read_hole_step blk s).off + (read_hole_step blk s).len_read =
      s.off + s.len_read ∧
    s.off_inpg ≤ (read_hole_step blk s).off_inpg ∧
    s.off ≤ (read_hole_step blk s).off ∧
    (read_hole_step blk s).off - s.off =
      (read_hole_step blk s).off_inpg - s.off_inpg ∧
    (∀ j, (read_hole_step blk s).buf j =
      if s.off_inpg ≤ j ∧ j < (read_hole_step blk s).off_inpg then 0
      else s.buf j) ∧
    (∀ q, s.off ≤ q → q < (read_hole_step blk s).off → q < blk.b_off) ∧
    ((read_hole_step blk s).len_read ≠ 0 → s.off < blk.b_off →
      (read_hole_step blk s).off = blk.b_off) ∧
    (¬ s.off < blk.b_off → read_hole_step blk s = s) := by
  unfold read_hole_step
  by_cases hlt : s.off < blk.b_off
  · simp only [if_pos hlt]
    refine ⟨?_, ?_, ?_, ?_, ?_, ?_, ?_, ?_, ?_, ?_⟩
    all_goals try trivial
    all_goals try (intros; omega)
    all_goals try (intro hx; exact absurd hlt hx)
    intro j
    unfold bufZero
    by_cases hj : s.off_inpg ≤ j ∧
        j < s.off_inpg + min (blk.b_off - s.off) s.len_read
    · rw [if_pos hj]
    · rw [if_neg hj]
  · simp only [if_neg hlt]
    refine ⟨?_, ?_, ?_, ?_, ?_, ?_, ?_, ?_, ?_, ?_⟩
    all_goals try trivial
    all_goals try (intros; omega)
    all_goals try (intro h1 hx; exact absurd hx hlt)
    all_goals try (intro hx; trivial)
    intro j
    rw [if_neg (by omega)]

theorem read_copy_step_spec (blk : ceph_osds_block) (s1 : ReadSt)
    (halign : blk.b_off % OSDS_BLOCK_SIZE = 0)
    (hlo : blk.b_off ≤ s1.off) (hhi : s1.off < blk.b_off + OSDS_BLOCK_SIZE) :
    (read_copy_step blk s1).len_read ≤ s1.len_read ∧
    (read_copy_step blk s1).off_inpg + (read_copy_step blk s1).len_read =
      s1.off_inpg + s1.len_read ∧
    (read_copy_step blk s1).off + (read_copy_step blk s1).len_read =
      s1.off + s1.len_read ∧
    s1.off_inpg ≤ (read_copy_step blk s1).off_inpg ∧
    (read_copy_step blk s1).off - s1.off =
      (read_copy_step blk s1).off_inpg - s1.off_inpg ∧
    (read_copy_step blk s1).off ≤ blk.b_off + OSDS_BLOCK_SIZE ∧
    (s1.len_read ≠ 0 → s1.off_inpg < (read_copy_step blk s1).off_inpg) ∧
    (∀ j, (read_copy_step blk s1).buf j =
      if s1.off_inpg ≤ j ∧ j < (read_copy_step blk s1).off_inpg
      then blk.b_data ((s1.off - blk.b_off) + (j - s1.off_inpg))
      else s1.buf j) ∧
    ((read_copy_step blk s1).len_read ≠ 0 →
      (read_copy_step blk s1).off = blk.b_off + OSDS_BLOCK_SIZE) := by
  have hmod : s1.off % OSDS_BLOCK_SIZE = s1.off - blk.b_off :=
    aligned_mod_sub halign hlo hhi
  have hBS := OSDS_BLOCK_SIZE_pos
  unfold read_copy_step
  simp only [hmod]
  refine ⟨?_, ?_, ?_, ?_, ?_, ?_, ?_, ?_, ?_⟩
  all_goals try trivial
  all_goals try (intros; omega)
  intro j
  unfold bufCopy
  by_cases hj : s1.off_inpg ≤ j ∧
      j < s1.off_inpg + min (OSDS_BLOCK_SIZE - (s1.off - blk.b_off)) s1.len_read
  · rw [if_pos hj]
  · rw [if_neg hj]

theorem read_loop_spec (bs : List ceph_osds_block) :
    ∀ s : ReadSt,
    List.Pairwise (fun a b => a.b_off < b.b_off) bs →
    (∀ b ∈ bs, b.b_off % OSDS_BLOCK_SIZE = 0) →
    (∀ b ∈ bs, ALIGN_DOWN s.off ≤ b.b_off) →
    (read_loop bs s).len_read ≤ s.len_read ∧
    (read_loop bs s).off_inpg + (read_loop bs s).len_read =
      s.off_inpg + s.len_read ∧
    (read_loop bs s).off + (read_loop bs s).len_read = s.off + s.len_read ∧
    s.off_inpg ≤ (read_loop bs s).off_inpg ∧
    (∀ j, (read_loop bs s).buf j =
      if s.off_inpg ≤ j ∧ j < (read_loop bs s).off_inpg
      then cover_byte bs (s.off + (j - s.off_inpg))
      else s.buf j) ∧
    ((read_loop bs s).len_read ≠ 0 →
      ∀ b ∈ bs, b.b_off + OSDS_BLOCK_SIZE ≤ (read_loop bs s).off) := by
  induction bs with
  | nil =>
    intro s _ _ _
    have hred : read_loop ([] : List ceph_osds_block) s = s := rfl
    rw [hred]
    refine ⟨le_rfl, rfl, rfl, le_rfl, ?_, fun _ b hb => absurd hb (List.not_mem_nil b)⟩
    intro j
    rw [if_neg (by omega)]
  | cons blk rest ih =>
    intro s hsort halign hpos
    rw [List.pairwise_cons] at hsort
    obtain ⟨hblk_lt, hsort_rest⟩ := hsort
    have hBS := OSDS_BLOCK_SIZE_pos
    have halign_blk : blk.b_off % OSDS_BLOCK_SIZE = 0 :=
      halign blk (List.mem_cons_self _ _)
    have halign_rest : ∀ b ∈ rest, b.b_off % OSDS_BLOCK_SIZE = 0 :=
      fun b hb => halign b (List.mem_cons_of_mem _ hb)
    have hpos_blk : ALIGN_DOWN s.off ≤ blk.b_off :=
      hpos blk (List.mem_cons_self _ _)
    have hADle := ALIGN_DOWN_le s.off
    by_cases h0 : s.len_read = 0
    · have ht : read_loop (blk :: rest) s = s := by
        rw [read_loop, if_pos h0]
      rw [ht]
      refine ⟨le_rfl, rfl, rfl, le_rfl, ?_, fun hc => absurd h0 hc⟩
      intro j
      rw [if_neg (by omega)]
    · obtain ⟨hh1, hh2, hh3, hh4, hh5, hh6, hh7, hh8, hh9, hh10⟩ :=
        read_hole_step_spec blk s
      set s1 := read_hole_step blk s with hs1def
      by_cases h1 : s1.len_read = 0
      · have ht : read_loop (blk :: rest) s = s1 := by
          rw [read_loop, if_neg h0, ← hs1def, if_pos h1]
        rw [ht]
        refine ⟨hh1, hh2, hh3, hh4, ?_, fun hc => absurd h1 hc⟩
        intro j
        rw [hh7 j]
        by_cases hj : s.off_inpg ≤ j ∧ j < s1.off_inpg
        · have hq : s.off + (j - s.off_inpg) < blk.b_off :=
            hh8 _ (by omega) (by omega)
          have hcov : cover_byte (blk :: rest) (s.off + (j - s.off_inpg)) = 0 := by
            rw [cover_byte_cons_skip _ _ _ (by omega)]
            exact cover_byte_none _ _ (fun b hb => by
              have := hblk_lt b hb
              omega)
          rw [hcov, if_pos hj]
        · rw [if_neg hj]
          rw [if_neg hj]
      · have hcov1 : blk.b_off ≤ s1.off := by
          by_cases hlt : s.off < blk.b_off
          · have := hh9 h1 hlt
            omega
          · have hse := hh10 hlt
            rw [hse]
            omega
        have hcov2 : s1.off < blk.b_off + OSDS_BLOCK_SIZE := by
          by_cases hlt : s.off < blk.b_off
          · have := hh9 h1 hlt
            omega
          · have hse := hh10 hlt
            rw [hse]
            have h5 := lt_ALIGN_DOWN_add s.off
            omega
        obtain ⟨hc1, hc2, hc3, hc4, hc5, hc6, hc7, hc8, hc9⟩ :=
          read_copy_step_spec blk s1 halign_blk hcov1 hcov2
        set s2 := read_copy_step blk s1 with hs2def
        have hpos2 : ∀ b ∈ rest, ALIGN_DOWN s2.off ≤ b.b_off := by
          intro b hb
          have hbb := aligned_lt_add_le halign_blk (halign_rest b hb)
            (hblk_lt b hb)
          have := ALIGN_DOWN_le s2.off
          omega
        obtain ⟨hi1, hi2, hi3, hi4, hi5, hi6⟩ := ih s2 hsort_rest halign_rest hpos2
        have ht : read_loop (blk :: rest) s = read_loop rest s2 := by
          rw [read_loop, if_neg h0, ← hs1def, if_neg h1, ← hs2def]
        rw [ht]
        set t := read_loop rest s2 with htdef
        have hoff1 : s.off ≤ s1.off := hh5
        have hoff2 : s1.off ≤ s2.off := by omega
        have hoff3 : s2.off ≤ t.off := by omega
        refine ⟨by omega, by omega, by omega, by omega, ?_, ?_⟩
        · intro j
          rw [hi5 j]
          by_cases hj3 : s2.off_inpg ≤ j ∧ j < t.off_inpg
          · have hqeq : s2.off + (j - s2.off_inpg) = s.off + (j - s.off_inpg) := by
              omega
            have hs2len : s2.len_read ≠ 0 := by omega
            have hfull := hc9 hs2len
            have hcov : cover_byte (blk :: rest) (s.off + (j - s.off_inpg)) =
                cover_byte rest (s2.off + (j - s2.off_inpg)) := by
              rw [cover_byte_cons_skip _ _ _ (by omega), hqeq]
            rw [hcov, if_pos hj3, if_pos (by omega)]
          · rw [if_neg hj3, hc8 j]
            by_cases hj2 : s1.off_inpg ≤ j ∧ j < s2.off_inpg
            · have hq1 : blk.b_off ≤ s.off + (j - s.off_inpg) := by omega
              have hq2 : s.off + (j - s.off_inpg) <
                  blk.b_off + OSDS_BLOCK_SIZE := by omega
              have hcov : cover_byte (blk :: rest) (s.off + (j - s.off_inpg)) =
                  blk.b_data ((s1.off - blk.b_off) + (j - s1.off_inpg)) := by
                rw [cover_byte_cons_hit blk rest _ hq1 hq2]
                congr 1
                omega
              rw [hcov, if_pos hj2, if_pos (by omega)]
            · rw [if_neg hj2, hh7 j]
              by_cases hj1 : s.off_inpg ≤ j ∧ j < s1.off_inpg
              · have hq : s.off + (j - s.off_inpg) < blk.b_off :=
                  hh8 _ (by omega) (by omega)
                have hcov : cover_byte (blk :: rest)
                    (s.off + (j - s.off_inpg)) = 0 := by
                  rw [cover_byte_cons_skip _ _ _ (by omega)]
                  exact cover_byte_none _ _ (fun b hb => by
                    have := hblk_lt b hb
                    omega)
                rw [hcov, if_pos hj1, if_pos (by omega)]
              · rw [if_neg hj1, if_neg (by omega)]
        · intro hlen b hb
          rcases List.mem_cons.mp hb with rfl | hb2
          · have hs2len : s2.len_read ≠ 0 := by omega
            have := hc9 hs2len
            omega
          · exact hi6 hlen b hb2

theorem suffix_off_ge (v : Nat) (bs : List ceph_osds_block) :
    List.Pairwise (fun a b => a.b_off < b.b_off) bs →
    ∀ b ∈ lookup_right_suffix bs v, v ≤ b.b_off := by
  induction bs with
  | nil =>
    intro _ b hb
    simp [lookup_right_suffix] at hb
  | cons x rest ih =>
    intro hsort b hb
    rw [List.pairwise_cons] at hsort
    obtain ⟨hx_lt, hsort_rest⟩ := hsort
    unfold lookup_right_suffix at hb
    rw [List.dropWhile_cons] at hb
    by_cases hx : x.b_off < v
    · rw [if_pos (by simpa using hx)] at hb
      exact ih hsort_rest b hb
    · rw [if_neg (by simpa using hx)] at hb
      rcases List.mem_cons.mp hb with rfl | hb2
      · omega
      · have := hx_lt b hb2
        omega

theorem cover_byte_suffix (v q : Nat) (hv : v % OSDS_BLOCK_SIZE = 0)
    (hq : v ≤ q) (bs : List ceph_osds_block) :
    (∀ b ∈ bs, b.b_off % OSDS_BLOCK_SIZE = 0) →
    cover_byte (lookup_right_suffix bs v) q = cover_byte bs q := by
  induction bs with
  | nil =>
    intro _
    rfl
  | cons x rest ih =>
    intro halign
    have ih2 := ih (fun b hb => halign b (List.mem_cons_of_mem _ hb))
    unfold lookup_right_suffix at ih2 ⊢
    rw [List.dropWhile_cons]
    by_cases hx : x.b_off < v
    · rw [if_pos (by simpa using hx)]
      have hxal := halign x (List.mem_cons_self _ _)
      have hxd := aligned_lt_add_le hxal hv hx
      have hskip : cover_byte (x :: rest) q = cover_byte rest q :=
        cover_byte_cons_skip x rest q (by omega)
      rw [ih2, hskip]
    · rw [if_neg (by simpa using hx)]

/-- C2: for a read with offset < o_size on an object with a well-formed
block tree, the reply succeeds, outdata_len = min(length, o_size -
offset), and every byte of the reply equals the cover_byte
specification: zero in every range not covered by an allocated block, and
the block's stored byte at the matching in-block offset elsewhere
(osd_server.c lines 786-877). -/
theorem read_hole_fill (junkP : Nat → Nat) (st : Store) (hoid : Nat)
    (op : OsdOp) (obj : ceph_osds_object)
    (hobj : store_lookup st hoid = some obj)
    (hwf : blocks_wf obj.o_blocks)
    (hoff : op.extent_offset < obj.o_size) :
    (handle_osd_op_read junkP st hoid op).1 = 0 ∧
    (handle_osd_op_read junkP st hoid op).2.outdata_len =
      min op.extent_length (obj.o_size - op.extent_offset) ∧
    ∀ i, i < min op.extent_length (obj.o_size - op.extent_offset) →
      opBuf (handle_osd_op_read junkP st hoid op).2 i =
        cover_byte obj.o_blocks (op.extent_offset + i) := by
  obtain ⟨hsort, halign⟩ := hwf
  set L := min op.extent_length (obj.o_size - op.extent_offset) with hLdef
  set off := op.extent_offset with hoffdef
  set blks := lookup_right_suffix obj.o_blocks (ALIGN_DOWN off) with hblksdef
  have hred : handle_osd_op_read junkP st hoid op =
      (0, { op with
        outdata_len := L,
        outdata := some (if (read_loop blks
              { buf := junkP, off_inpg := 0, off := off, len_read := L }).len_read ≠ 0
          then bufZero
            (read_loop blks
              { buf := junkP, off_inpg := 0, off := off, len_read := L }).buf
            (read_loop blks
              { buf := junkP, off_inpg := 0, off := off, len_read := L }).off_inpg
            (read_loop blks
              { buf := junkP, off_inpg := 0, off := off, len_read := L }).len_read
          else (read_loop blks
            { buf := junkP, off_inpg := 0, off := off, len_read := L }).buf) }) := by
    unfold handle_osd_op_read
    rw [hobj]
    dsimp only
    rw [if_neg (by omega)]
  have hsub : List.Sublist blks obj.o_blocks := List.dropWhile_sublist _
  have hsort_suf : List.Pairwise (fun a b => a.b_off < b.b_off) blks :=
    List.Pairwise.sublist hsub hsort
  have halign_suf : ∀ b ∈ blks, b.b_off % OSDS_BLOCK_SIZE = 0 :=
    fun b hb => halign b (hsub.subset hb)
  have hADoff := ALIGN_DOWN_le off
  have hADal := ALIGN_DOWN_aligned off
  obtain ⟨h1, h2, h3, h4, h5, h6⟩ := read_loop_spec blks
    { buf := junkP, off_inpg := 0, off := off, len_read := L }
    hsort_suf halign_suf
    (fun b hb => suffix_off_ge (ALIGN_DOWN off) obj.o_blocks hsort b hb)
  dsimp only at h1 h2 h3 h4 h5 h6
  rw [hred]
  refine ⟨rfl, rfl, ?_⟩
  intro i hi
  dsimp only [opBuf]
  rw [Option.getD_some]
  set t := read_loop blks
    { buf := junkP, off_inpg := 0, off := off, len_read := L } with htdef
  by_cases hcase : i < t.off_inpg
  · have hb1 : (if t.len_read ≠ 0
        then bufZero t.buf t.off_inpg t.len_read else t.buf) i = t.buf i := by
      by_cases hz : t.len_read ≠ 0
      · rw [if_pos hz]
        simp only [bufZero]
        rw [if_neg (by omega)]
      · rw [if_neg hz]
    rw [hb1, h5 i, if_pos (by omega)]
    have hsimp : off + (i - 0) = off + i := by omega
    rw [hsimp]
    exact cover_byte_suffix (ALIGN_DOWN off) (off + i) hADal (by omega)
      obj.o_blocks halign
  · have hz : t.len_read ≠ 0 := by omega
    have hb1 : (if t.len_read ≠ 0
        then bufZero t.buf t.off_inpg t.len_read else t.buf) i = 0 := by
      rw [if_pos hz]
      simp only [bufZero]
      rw [if_pos (by omega)]
    rw [hb1]
    have hcov : cover_byte blks (off + i) = 0 := by
      refine cover_byte_none _ _ ?_
      intro b hb
      have hble := h6 hz b hb
      omega
    rw [← cover_byte_suffix (ALIGN_DOWN off) (off + i) hADal (by omega)
      obj.o_blocks halign]
    exact hcov.symm

/-- C2 witness: a 4-byte read at offset 65534 of a 70000-byte object with
one block at offset 65536, straddling the hole before the block. -/
theorem read_hole_fill_witness :
    store_lookup exReadStore 7 = some exReadObj ∧
    blocks_wf exReadObj.o_blocks ∧
    exReadOp2.extent_offset < exReadObj.o_size ∧
    ((handle_osd_op_read (fun _ => 9) exReadStore 7 exReadOp2).1 = 0 ∧
     (handle_osd_op_read (fun _ => 9) exReadStore 7 exReadOp2).2.outdata_len =
       min exReadOp2.extent_length
         (exReadObj.o_size - exReadOp2.extent_offset) ∧
     ∀ i, i < min exReadOp2.extent_length
         (exReadObj.o_size - exReadOp2.extent_offset) →
       opBuf (handle_osd_op_read (fun _ => 9) exReadStore 7 exReadOp2).2 i =
         cover_byte exReadObj.o_blocks (exReadOp2.extent_offset + i)) := by
  have hwf : blocks_wf exReadObj.o_blocks := by
    constructor
    · exact List.pairwise_singleton _ _
    · intro b hb
      simp only [exReadObj, List.mem_singleton] at hb
      subst hb
      decide
  exact ⟨rfl, hwf, by decide,
    read_hole_fill (fun _ => 9) exReadStore 7 exReadOp2 exReadObj rfl hwf
      (by decide)⟩

end Pech
